import Mathlib

/-!
Verification development for the beanweb ledger core.

The Rust sources are shallowly embedded:
* `rust_decimal::Decimal` becomes a pair of an integer mantissa and a scale
  (value `m / 10^scale`); its `Display` output is reproduced as a string.
* `f64` values become exact rationals (`ℚ`).  Every computation settled here
  stays inside decimal arithmetic that IEEE doubles either represent exactly
  or treat sign-symmetrically, so the rational model is faithful for the
  statements proved below.
* `chrono::NaiveDate` becomes a year/month/day triple ordered
  lexicographically, with proleptic-Gregorian validity.
* Rust strings stay `String`; helper scanners mirror the exact character
  walks of the source.
-/

namespace Beanweb

/-- Calendar date (year, month, day) as used by the embedded code. -/
structure Date where
  y : Nat
  m : Nat
  d : Nat
deriving DecidableEq, Repr

/-- The year/month/day triple of a date, lexicographically ordered.  This is
the order of `chrono::NaiveDate`, which also equals the byte order of the
zero-padded `YYYY-MM-DD` rendering used throughout the Rust code. -/
def Date.key (a : Date) : ℕ ×ₗ ℕ ×ₗ ℕ := toLex (a.y, toLex (a.m, a.d))

theorem Date.key_injective : Function.Injective Date.key := by
  intro a b h
  cases a
  cases b
  simp only [Date.key, toLex_inj, Prod.mk.injEq] at h
  simp_all

instance : LinearOrder Date := LinearOrder.lift' Date.key Date.key_injective

theorem Date.lt_iff (a b : Date) :
    a < b ↔ a.y < b.y ∨ (a.y = b.y ∧ (a.m < b.m ∨ (a.m = b.m ∧ a.d < b.d))) := by
  change Date.key a < Date.key b ↔ _
  cases a
  cases b
  simp [Date.key, Prod.Lex.lt_iff]

theorem Date.le_iff (a b : Date) :
    a ≤ b ↔ a.y < b.y ∨ (a.y = b.y ∧ (a.m < b.m ∨ (a.m = b.m ∧ a.d ≤ b.d))) := by
  rw [le_iff_lt_or_eq, Date.lt_iff]
  cases a
  cases b
  simp only [Date.mk.injEq]
  omega

/-- Leap-year predicate of the proleptic Gregorian calendar. -/
def isLeapYear (y : Nat) : Bool :=
  (y % 4 == 0 && y % 100 != 0) || (y % 400 == 0)

/-- Number of days of month `m` in year `y` (0 for an invalid month). -/
def daysInMonth (y m : Nat) : Nat :=
  if m = 1 ∨ m = 3 ∨ m = 5 ∨ m = 7 ∨ m = 8 ∨ m = 10 ∨ m = 12 then 31
  else if m = 4 ∨ m = 6 ∨ m = 9 ∨ m = 11 then 30
  else if m = 2 then (if isLeapYear y then 29 else 28)
  else 0

/-- Validity of a year/month/day triple in the proleptic Gregorian calendar
(`chrono::NaiveDate::from_ymd_opt`; chrono's internal ±262143 year bound is
unreachable for the four-digit years produced by the parser and for clock
dates, so it is not modelled). -/
def isValidYmd (y m d : Nat) : Bool :=
  decide (1 ≤ m) && decide (m ≤ 12) && decide (1 ≤ d) && decide (d ≤ daysInMonth y m)

/-- The date `1970-01-01` substituted by the parser for unparseable dates. -/
def epochDate : Date := ⟨1970, 1, 1⟩

/-- Round a rational to the nearest integer, ties to even — the rounding used
by Rust's `{:.2}` float formatting (applied to `100 * x` there). -/
def rne (x : ℚ) : ℤ :=
  if Int.fract x < 1/2 then ⌊x⌋
  else if 1/2 < Int.fract x then ⌊x⌋ + 1
  else if ⌊x⌋ % 2 = 0 then ⌊x⌋ else ⌊x⌋ + 1

theorem rne_intCast (n : ℤ) : rne n = n := by
  rw [rne, Int.fract_intCast, Int.floor_intCast]
  norm_num

/-- `rne` is an odd function: negating the argument negates the result.
This is the key arithmetic fact behind the pad postings being exact
additive inverses after `{:.2}` formatting. -/
theorem rne_neg (x : ℚ) : rne (-x) = -rne x := by
  rcases eq_or_ne (Int.fract x) 0 with h0 | h0
  · obtain ⟨n, rfl⟩ : ∃ n : ℤ, (n : ℚ) = x := ⟨⌊x⌋, by
      have h2 := Int.self_sub_floor x
      rw [h0] at h2
      linarith⟩
    rw [show -(n : ℚ) = ((-n : ℤ) : ℚ) by push_cast; ring, rne_intCast, rne_intCast]
  · have hfr : Int.fract (-x) = 1 - Int.fract x := Int.fract_neg h0
    have h1 := Int.self_sub_floor (-x)
    have h2 := Int.self_sub_floor x
    have hfl : ⌊-x⌋ = -⌊x⌋ - 1 := by
      have hc : (⌊-x⌋ : ℚ) = ((-⌊x⌋ - 1 : ℤ) : ℚ) := by
        rw [hfr] at h1
        push_cast
        linarith
      exact_mod_cast hc
    have hpos : 0 < Int.fract x := lt_of_le_of_ne (Int.fract_nonneg x) (Ne.symm h0)
    have hlt1 : Int.fract x < 1 := Int.fract_lt_one x
    unfold rne
    rw [hfl, hfr]
    rcases lt_trichotomy (Int.fract x) (1/2 : ℚ) with hlt | heq | hgt
    · have hA : ¬ (1 - Int.fract x < 1/2) := by linarith
      have hB : (1/2 : ℚ) < 1 - Int.fract x := by linarith
      rw [if_neg hA, if_pos hB, if_pos hlt]
      ring
    · have hA : ¬ (1 - Int.fract x < 1/2) := by rw [heq]; norm_num
      have hB : ¬ ((1/2 : ℚ) < 1 - Int.fract x) := by rw [heq]; norm_num
      have hC : ¬ (Int.fract x < 1/2) := by rw [heq]; norm_num
      have hD : ¬ ((1/2 : ℚ) < Int.fract x) := by rw [heq]; norm_num
      rw [if_neg hA, if_neg hB, if_neg hC, if_neg hD]
      rcases Int.emod_two_eq_zero_or_one ⌊x⌋ with he | ho
      · have hE : ¬ ((-⌊x⌋ - 1) % 2 = 0) := by omega
        rw [if_neg hE, if_pos he]
        ring
      · have hE : (-⌊x⌋ - 1) % 2 = 0 := by omega
        have hF : ¬ (⌊x⌋ % 2 = 0) := by omega
        rw [if_pos hE, if_neg hF]
        ring
    · have hA : 1 - Int.fract x < 1/2 := by linarith
      have hC : ¬ (Int.fract x < 1/2) := by linarith
      rw [if_pos hA, if_neg hC, if_pos hgt]
      ring

/-- Decimal digit character for `k % 10`. -/
def digitChar (k : ℕ) : Char := Char.ofNat (48 + k % 10)

/-- Decimal rendering of a natural number, most significant digit first
(the rendering used by `Display` of integers and `rust_decimal::Decimal`). -/
def natChars (n : ℕ) : List Char :=
  if _h : n < 10 then [digitChar n]
  else natChars (n / 10) ++ [digitChar n]
decreasing_by exact Nat.div_lt_self (by omega) (by omega)

/-- Numeric value of a digit character. -/
def digitVal (c : Char) : ℕ := c.toNat - 48

/-- Value of a big-endian digit list. -/
def digitsToNat (cs : List Char) : ℕ := cs.foldl (fun a c => a * 10 + digitVal c) 0

theorem digitChar_isDigit (k : ℕ) : (digitChar k).isDigit = true := by
  have hr : k % 10 < 10 := Nat.mod_lt _ (by norm_num)
  unfold digitChar
  set r := k % 10 with hr'
  interval_cases r <;> decide

theorem digitVal_digitChar (k : ℕ) : digitVal (digitChar k) = k % 10 := by
  have hr : k % 10 < 10 := Nat.mod_lt _ (by norm_num)
  unfold digitChar digitVal
  set r := k % 10 with hr'
  interval_cases r <;> decide

theorem natChars_ne_nil (n : ℕ) : natChars n ≠ [] := by
  unfold natChars
  split <;> simp

theorem natChars_digits (n : ℕ) : ∀ c ∈ natChars n, c.isDigit = true := by
  induction n using Nat.strong_induction_on with
  | _ n ih =>
    unfold natChars
    split
    · intro c hc
      rw [List.mem_singleton] at hc
      exact hc ▸ digitChar_isDigit n
    · intro c hc
      rcases List.mem_append.1 hc with h | h
      · exact ih (n / 10) (Nat.div_lt_self (by omega) (by omega)) c h
      · rw [List.mem_singleton] at h
        exact h ▸ digitChar_isDigit n

theorem digitsToNat_append (a b : List Char) :
    digitsToNat (a ++ b) = b.foldl (fun x c => x * 10 + digitVal c) (digitsToNat a) := by
  unfold digitsToNat
  rw [List.foldl_append]

theorem digitsToNat_natChars (n : ℕ) : digitsToNat (natChars n) = n := by
  induction n using Nat.strong_induction_on with
  | _ n ih =>
    unfold natChars
    split
    · simp [digitsToNat, digitVal_digitChar, Nat.mod_eq_of_lt, *]
    · rw [digitsToNat_append, ih (n / 10) (Nat.div_lt_self (by omega) (by omega))]
      simp [digitVal_digitChar]
      omega

theorem takeWhile_append_all {p : Char → Bool} {l₁ : List Char} (l₂ : List Char)
    (h : ∀ c ∈ l₁, p c = true) : (l₁ ++ l₂).takeWhile p = l₁ ++ l₂.takeWhile p := by
  induction l₁ with
  | nil => simp
  | cons c cs ih =>
    simp only [List.cons_append, List.takeWhile_cons, h c (by simp), if_true, ite_true]
    rw [ih (fun x hx => h x (by simp [hx]))]

theorem dropWhile_append_all {p : Char → Bool} {l₁ : List Char} (l₂ : List Char)
    (h : ∀ c ∈ l₁, p c = true) : (l₁ ++ l₂).dropWhile p = l₂.dropWhile p := by
  induction l₁ with
  | nil => simp
  | cons c cs ih =>
    simp only [List.cons_append, List.dropWhile_cons, h c (by simp)]
    exact ih (fun x hx => h x (by simp [hx]))

/-- Character test used when scanning amount strings: digit or decimal dot. -/
def isNumChar (c : Char) : Bool := c.isDigit || c == '.'

/-- Model of Rust `str::parse::<f64>()` on the plain decimal forms produced
and consumed by this codebase (optional sign, digits, at most one dot, no
exponent).  The result is the exact rational value of the numeral; the
binary rounding a real `f64` would apply is immaterial to the properties
proved here, which stay inside exactly representable or sign-symmetric
arithmetic. -/
def parseF64Sign : List Char → ℚ × List Char
  | [] => (1, [])
  | c :: r => if c = '-' then (-1, r) else if c = '+' then (1, r) else (1, c :: r)

def parseF64Rest (sgn : ℚ) (intPart : List Char) : List Char → Option ℚ
  | [] => if intPart.isEmpty then none else some (sgn * digitsToNat intPart)
  | c :: frac =>
    if c = '.' then
      let fracPart := frac.takeWhile Char.isDigit
      if (frac.dropWhile Char.isDigit).isEmpty && !(intPart.isEmpty && fracPart.isEmpty) then
        some (sgn * (digitsToNat intPart + (digitsToNat fracPart : ℚ) / 10 ^ fracPart.length))
      else none
    else none

def parseF64Chars (cs : List Char) : Option ℚ :=
  parseF64Rest (parseF64Sign cs).1 ((parseF64Sign cs).2.takeWhile Char.isDigit)
    ((parseF64Sign cs).2.dropWhile Char.isDigit)

def parseF64 (s : String) : Option ℚ := parseF64Chars s.data

/-- Model of `rust_decimal::Decimal`: an integer mantissa with a decimal
scale; the numeric value is `mantissa / 10 ^ scale`. -/
structure Dec where
  mantissa : ℤ
  scale : ℕ
deriving DecidableEq, Repr

/-- Numeric value of a decimal. -/
def Dec.val (d : Dec) : ℚ := (d.mantissa : ℚ) / 10 ^ d.scale

/-- Fraction digits of `r` left-padded with zeros to width `scale`. -/
def padChars (scale : ℕ) (r : ℕ) : List Char :=
  List.replicate (scale - (natChars r).length) '0' ++ natChars r

/-- Characters of the `Display` rendering of a `rust_decimal::Decimal`:
the mantissa digits with a decimal point inserted `scale` places from the
right (no point at scale 0). -/
def decChars (d : Dec) : List Char :=
  (if d.mantissa < 0 then ['-'] else []) ++
    (if d.scale = 0 then natChars d.mantissa.natAbs
     else natChars (d.mantissa.natAbs / 10 ^ d.scale) ++
       '.' :: padChars d.scale (d.mantissa.natAbs % 10 ^ d.scale))

/-- String form of `Decimal::to_string()`. -/
def decToString (d : Dec) : String := ⟨decChars d⟩

/-- Characters of Rust `format!("{:.2}", v)`: the value rounded half-to-even
at two decimal places and printed with exactly two fraction digits.  (A
negative IEEE zero would print as `-0.00`; the rational model renders the
same numeric value as `0.00`.) -/
def fmt2Chars (k : ℤ) : List Char :=
  (if k < 0 then ['-'] else []) ++ natChars (k.natAbs / 100) ++ '.' :: padChars 2 (k.natAbs % 100)

/-- Model of `format!("{:.2}", x)`. -/
def fmt2 (x : ℚ) : String := ⟨fmt2Chars (rne (100 * x))⟩

/-- Scanner core of `Ledger::parse_amount` (beanweb-core `lib.rs`): walk the
comma-free characters, and at the first digit-or-dot build a number token
(prefixed with `-` when the immediately preceding character was `-`),
returning its parsed value or `0.0` on a parse failure. -/
def parseAmountChars : List Char → Option Char → ℚ
  | [], _ => 0
  | c :: rest, prev =>
    if isNumChar c then
      (parseF64Chars ((if prev == some '-' then ['-'] else []) ++
        (c :: rest).takeWhile isNumChar)).getD 0
    else parseAmountChars rest (some c)

/-- Model of `Ledger::parse_amount`: empty string is `0.0`; otherwise commas
are removed and the first number found is parsed. -/
def parse_amount (s : String) : ℚ :=
  if s.data.isEmpty then 0
  else parseAmountChars (s.data.filter (fun c => c != ',')) none

theorem digitsToNat_replicate_zero (k : ℕ) : digitsToNat (List.replicate k '0') = 0 := by
  induction k with
  | zero => rfl
  | succ n ih =>
    rw [List.replicate_succ]
    unfold digitsToNat at ih ⊢
    simpa using ih

theorem digitsToNat_padChars (s r : ℕ) : digitsToNat (padChars s r) = r := by
  rw [padChars, digitsToNat_append, digitsToNat_replicate_zero]
  have : List.foldl (fun x c => x * 10 + digitVal c) 0 (natChars r) = r :=
    digitsToNat_natChars r
  exact this

theorem natChars_length_le_two {r : ℕ} (h : r < 100) : (natChars r).length ≤ 2 := by
  unfold natChars
  split
  · simp
  · unfold natChars
    have h10 : r / 10 < 10 := by omega
    rw [dif_pos h10]
    simp

theorem padChars_two_length {r : ℕ} (h : r < 100) : (padChars 2 r).length = 2 := by
  rw [padChars, List.length_append, List.length_replicate]
  have := natChars_length_le_two h
  omega

theorem padChars_digits (s r : ℕ) : ∀ c ∈ padChars s r, c.isDigit = true := by
  intro c hc
  rcases List.mem_append.1 hc with h | h
  · rw [List.eq_of_mem_replicate h]
    decide
  · exact natChars_digits r c h

theorem mem_fmt2Chars_isNumChar (k : ℤ) :
    ∀ c ∈ natChars (k.natAbs / 100) ++ '.' :: padChars 2 (k.natAbs % 100),
      isNumChar c = true := by
  intro c hc
  rcases List.mem_append.1 hc with h | h
  · simp [isNumChar, natChars_digits _ c h]
  · rcases List.mem_cons.1 h with h | h
    · simp [h, isNumChar]
    · simp [isNumChar, padChars_digits _ _ c h]

theorem takeWhile_eq_self_of_all {p : Char → Bool} {l : List Char}
    (h : ∀ c ∈ l, p c = true) : l.takeWhile p = l := by
  have := @takeWhile_append_all p l [] h
  simpa using this

theorem dropWhile_eq_nil_of_all {p : Char → Bool} {l : List Char}
    (h : ∀ c ∈ l, p c = true) : l.dropWhile p = [] := by
  have := @dropWhile_append_all p l [] h
  simpa using this

theorem parseF64Sign_cons (c : Char) (r : List Char) :
    parseF64Sign (c :: r) =
      if c = '-' then (-1, r) else if c = '+' then (1, r) else (1, c :: r) := rfl

theorem parseAmountChars_cons (c : Char) (rest : List Char) (prev : Option Char) :
    parseAmountChars (c :: rest) prev =
      if isNumChar c then
        (parseF64Chars ((if prev == some '-' then ['-'] else []) ++
          (c :: rest).takeWhile isNumChar)).getD 0
      else parseAmountChars rest (some c) := rfl

theorem parseF64Sign_of_digit {c : Char} (hc : c.isDigit = true) (r : List Char) :
    parseF64Sign (c :: r) = (1, c :: r) := by
  have h1 : c ≠ '-' := by
    intro h
    rw [h] at hc
    simp at hc
  have h2 : c ≠ '+' := by
    intro h
    rw [h] at hc
    simp at hc
  rw [parseF64Sign, if_neg h1, if_neg h2]

theorem parseF64Rest_centi (sgn : ℚ) (n : ℕ) :
    parseF64Rest sgn (natChars (n / 100)) ('.' :: padChars 2 (n % 100)) =
      some (sgn * ((n : ℚ) / 100)) := by
  have hmod : n % 100 < 100 := Nat.mod_lt _ (by norm_num)
  have hpdig := padChars_digits 2 (n % 100)
  rw [parseF64Rest, if_pos rfl]
  simp only [takeWhile_eq_self_of_all hpdig, dropWhile_eq_nil_of_all hpdig]
  rw [if_pos (by simp [natChars_ne_nil])]
  rw [digitsToNat_natChars, digitsToNat_padChars, padChars_two_length hmod]
  rw [Option.some.injEq]
  have hdm : 100 * (n / 100) + n % 100 = n := Nat.div_add_mod n 100
  conv_rhs => rw [← hdm]
  push_cast
  ring

theorem takeWhile_fmt2_body (n : ℕ) :
    (natChars (n / 100) ++ '.' :: padChars 2 (n % 100)).takeWhile Char.isDigit =
      natChars (n / 100) := by
  rw [takeWhile_append_all _ (natChars_digits _), List.takeWhile_cons]
  simp

theorem dropWhile_fmt2_body (n : ℕ) :
    (natChars (n / 100) ++ '.' :: padChars 2 (n % 100)).dropWhile Char.isDigit =
      '.' :: padChars 2 (n % 100) := by
  rw [dropWhile_append_all _ (natChars_digits _), List.dropWhile_cons]
  simp

/-- Value of the unsigned part of `fmt2Chars` under `parseF64Chars`. -/
theorem parseF64Chars_fmt2_core (n : ℕ) :
    parseF64Chars (natChars (n / 100) ++ '.' :: padChars 2 (n % 100)) =
      some ((n : ℚ) / 100) := by
  have hhead : ∃ c cs, natChars (n / 100) = c :: cs ∧ c.isDigit = true := by
    rcases hcs : natChars (n / 100) with _ | ⟨c, cs⟩
    · exact absurd hcs (natChars_ne_nil _)
    · exact ⟨c, cs, rfl, natChars_digits _ c (by rw [hcs]; simp)⟩
  obtain ⟨c, cs, hcs, hcd⟩ := hhead
  have hsign : parseF64Sign (natChars (n / 100) ++ '.' :: padChars 2 (n % 100)) =
      (1, natChars (n / 100) ++ '.' :: padChars 2 (n % 100)) := by
    rw [hcs, List.cons_append, parseF64Sign_of_digit hcd, ← List.cons_append, ← hcs]
  have hs1 : (parseF64Sign (natChars (n / 100) ++ '.' :: padChars 2 (n % 100))).1 = 1 := by
    rw [hsign]
  have hs2 : (parseF64Sign (natChars (n / 100) ++ '.' :: padChars 2 (n % 100))).2 =
      natChars (n / 100) ++ '.' :: padChars 2 (n % 100) := by
    rw [hsign]
  rw [parseF64Chars, hs1, hs2]
  rw [takeWhile_fmt2_body, dropWhile_fmt2_body, parseF64Rest_centi, one_mul]

/-- `parse_amount` applied to a `{:.2}`-formatted centi-integer recovers the
value `k / 100`. -/
theorem parse_amount_fmt2Chars (k : ℤ) :
    parse_amount ⟨fmt2Chars k⟩ = (k : ℚ) / 100 := by
  have hdig := natChars_digits (k.natAbs / 100)
  have hnum : ∀ c ∈ natChars (k.natAbs / 100) ++ '.' :: padChars 2 (k.natAbs % 100),
      isNumChar c = true := mem_fmt2Chars_isNumChar k
  have hnc : ∀ c ∈ fmt2Chars k, (c != ',') = true := by
    intro c hc
    rw [fmt2Chars, List.mem_append, List.mem_append] at hc
    have hd : c.isDigit = true → (c != ',') = true := by
      intro h2
      rcases eq_or_ne c ',' with rfl | hcc
      · exact absurd h2 (by decide)
      · simp [hcc]
    rcases hc with (h | h) | h
    · split at h
      · rw [List.mem_singleton] at h
        rw [h]
        decide
      · simp at h
    · exact hd (natChars_digits _ c h)
    · rcases List.mem_cons.1 h with h3 | h3
      · rw [h3]
        decide
      · exact hd (padChars_digits _ _ c h3)
  have hbody : ∃ c cs, natChars (k.natAbs / 100) = c :: cs ∧ c.isDigit = true := by
    rcases hcs : natChars (k.natAbs / 100) with _ | ⟨c, cs⟩
    · exact absurd hcs (natChars_ne_nil _)
    · exact ⟨c, cs, rfl, hdig c (by rw [hcs]; simp)⟩
  obtain ⟨c, cs, hcs, hcd⟩ := hbody
  have hfne : fmt2Chars k ≠ [] := by
    rw [fmt2Chars]
    split <;> simp [hcs]
  have htk : (c :: (cs ++ '.' :: padChars 2 (k.natAbs % 100))).takeWhile isNumChar =
      c :: (cs ++ '.' :: padChars 2 (k.natAbs % 100)) := by
    apply takeWhile_eq_self_of_all
    intro x hx
    apply hnum
    rw [hcs, List.cons_append]
    exact hx
  rw [parse_amount]
  rw [if_neg (by simpa [List.isEmpty_iff] using hfne)]
  rw [List.filter_eq_self.mpr hnc]
  rw [fmt2Chars]
  have hvalpos : parseF64Chars (c :: (cs ++ '.' :: padChars 2 (k.natAbs % 100))) =
      some ((k.natAbs : ℚ) / 100) := by
    have := parseF64Chars_fmt2_core k.natAbs
    rw [hcs, List.cons_append] at this
    exact this
  by_cases hk : k < 0
  · rw [if_pos hk]
    simp only [List.singleton_append, List.nil_append, hcs, List.cons_append]
    have hstep1 : parseAmountChars ('-' :: (c :: (cs ++ '.' :: padChars 2 (k.natAbs % 100))))
        none = parseAmountChars (c :: (cs ++ '.' :: padChars 2 (k.natAbs % 100)))
          (some '-') := by
      rw [parseAmountChars_cons, if_neg (show ¬ (isNumChar '-' = true) by decide)]
    have hstep2 : parseAmountChars (c :: (cs ++ '.' :: padChars 2 (k.natAbs % 100)))
        (some '-') = (parseF64Chars ('-' :: (c :: (cs ++ '.' ::
          padChars 2 (k.natAbs % 100))))).getD 0 := by
      rw [parseAmountChars_cons, if_pos (show isNumChar c = true by simp [isNumChar, hcd])]
      rw [if_pos (show ((some '-' : Option Char) == some '-') = true by decide)]
      rw [htk, List.singleton_append]
    rw [hstep1, hstep2]
    have hs : parseF64Sign ('-' :: (c :: (cs ++ '.' :: padChars 2 (k.natAbs % 100)))) =
        (-1, c :: (cs ++ '.' :: padChars 2 (k.natAbs % 100))) := by
      rw [parseF64Sign_cons, if_pos rfl]
    have hs1 : (parseF64Sign ('-' :: (c :: (cs ++ '.' ::
        padChars 2 (k.natAbs % 100))))).1 = -1 := by rw [hs]
    have hs2 : (parseF64Sign ('-' :: (c :: (cs ++ '.' ::
        padChars 2 (k.natAbs % 100))))).2 = c :: (cs ++ '.' ::
        padChars 2 (k.natAbs % 100)) := by rw [hs]
    rw [parseF64Chars, hs1, hs2, ← List.cons_append, ← hcs,
      takeWhile_fmt2_body, dropWhile_fmt2_body, parseF64Rest_centi, Option.getD_some]
    have hq : ((k.natAbs : ℕ) : ℚ) = -(k : ℚ) := by
      rw [Int.cast_natAbs]
      exact_mod_cast abs_of_neg hk
    rw [hq]
    ring
  · rw [if_neg hk]
    simp only [List.nil_append, hcs, List.cons_append]
    have hstep : parseAmountChars (c :: (cs ++ '.' :: padChars 2 (k.natAbs % 100))) none =
        (parseF64Chars (c :: (cs ++ '.' :: padChars 2 (k.natAbs % 100)))).getD 0 := by
      rw [parseAmountChars_cons, if_pos (show isNumChar c = true by simp [isNumChar, hcd])]
      rw [if_neg (show ¬ ((none : Option Char) == some '-') = true by decide)]
      rw [htk, List.nil_append]
    rw [hstep, hvalpos, Option.getD_some]
    have hq : ((k.natAbs : ℕ) : ℚ) = (k : ℚ) := by
      rw [Int.cast_natAbs]
      exact_mod_cast abs_of_nonneg (show (0:ℤ) ≤ k by omega)
    rw [hq]

/-! ### String utilities mirroring the Rust standard library operations -/

/-- Whitespace test (`char::is_whitespace`; the ASCII cases are the ones the
ledger format produces). -/
def isWs (c : Char) : Bool := c.isWhitespace

/-- Model of `str::trim`. -/
def trimChars (cs : List Char) : List Char :=
  ((cs.dropWhile isWs).reverse.dropWhile isWs).reverse

def trimStr (s : String) : String := ⟨trimChars s.data⟩

/-- Model of `str::trim_matches('"')`. -/
def trimQuotes (cs : List Char) : List Char :=
  ((cs.dropWhile (· == '"')).reverse.dropWhile (· == '"')).reverse

theorem length_dropWhile_le (p : Char → Bool) (l : List Char) :
    (l.dropWhile p).length ≤ l.length := by
  induction l with
  | nil => simp
  | cons c cs ih =>
    rw [List.dropWhile_cons]
    split
    · exact le_trans ih (by simp)
    · simp

/-- Model of `str::split_whitespace`: maximal non-whitespace runs. -/
def splitWsChars : List Char → List (List Char)
  | [] => []
  | c :: rest =>
    if isWs c then splitWsChars rest
    else (c :: rest.takeWhile (fun x => !isWs x)) ::
      splitWsChars (rest.dropWhile (fun x => !isWs x))
termination_by cs => cs.length
decreasing_by
  all_goals simp only [List.length_cons]
  · omega
  · exact Nat.lt_succ_of_le (length_dropWhile_le _ _)

/-- Model of `str::split_whitespace` returning strings. -/
def splitWs (s : String) : List String := (splitWsChars s.data).map (⟨·⟩)

/-- Split a character list at its first space, when one exists. -/
def breakAtSpace : List Char → Option (List Char × List Char)
  | [] => none
  | c :: rest =>
    if c = ' ' then some ([], rest)
    else match breakAtSpace rest with
      | none => none
      | some (a, b) => some (c :: a, b)

/-- Model of `str::splitn(n, ' ')`: split on single spaces into at most `n`
pieces, the last piece keeping the remainder (empty pieces included). -/
def splitnSpace : ℕ → List Char → List (List Char)
  | 0, _ => []
  | 1, cs => [cs]
  | n + 2, cs =>
    match breakAtSpace cs with
    | none => [cs]
    | some (a, b) => a :: splitnSpace (n + 1) b

def splitn (n : ℕ) (s : String) : List String := (splitnSpace n s.data).map (⟨·⟩)

/-- Model of `str::split(':')`. -/
def splitColon : List Char → List (List Char)
  | [] => [[]]
  | c :: rest =>
    if c = ':' then [] :: splitColon rest
    else match splitColon rest with
      | [] => [[c]]
      | h :: t => (c :: h) :: t

/-- Model of `str::contains(char)`. -/
def containsChar (cs : List Char) (c : Char) : Bool := cs.any (· == c)

/-- Model of `str::starts_with(prefixStr)` on character lists. -/
def startsWithChars (pre cs : List Char) : Bool := pre.isPrefixOf cs

def startsWith (s pre : String) : Bool := startsWithChars pre.data s.data

/-- Model of `str::replace(from, to)` for single-character patterns. -/
def replaceChar (cs : List Char) (a b : Char) : List Char :=
  cs.map (fun c => if c == a then b else c)

/-! ### Parser data model (beanweb-parser `types.rs` / `directives.rs`) -/

inductive PAccountType where
  | assets
  | liabilities
  | equity
  | income
  | expenses
deriving DecidableEq, Repr

structure PAccount where
  account_type : PAccountType
  name : String
  components : List String
deriving DecidableEq, Repr

structure PAmount where
  amount : Dec
  currency : String
deriving DecidableEq, Repr

structure PCost where
  amount : Dec
  currency : String
  date : Option Date
deriving DecidableEq, Repr

inductive PPrice where
  | single (a : PAmount)
  | total (a : PAmount)
deriving DecidableEq, Repr

/-- Metadata store (`Meta` wraps a `HashMap<String, StringValue>`; both
`StringValue` variants expose only their string, so entries are plain
key/value pairs here, with insert-replaces-existing-key semantics). -/
def Meta : Type := List (String × String)

instance : DecidableEq Meta := inferInstanceAs (DecidableEq (List (String × String)))

def Meta.empty : Meta := []

def Meta.get (m : Meta) (k : String) : Option String :=
  (List.find? (fun p => p.1 == k) m).map (·.2)

def Meta.insert (m : Meta) (k v : String) : Meta :=
  if (List.find? (fun p => p.1 == k) m).isSome then
    List.map (fun p => if p.1 == k then (k, v) else p) m
  else List.append m [(k, v)]

structure PPosting where
  flag : Option String
  account : PAccount
  amount : Option PAmount
  cost : Option PCost
  price : Option PPrice
deriving DecidableEq, Repr

structure PTransaction where
  date : Date
  flag : Option String
  payee : Option String
  narration : Option String
  tags : List String
  links : List String
  postings : List PPosting
  meta : Meta
deriving DecidableEq

structure OpenDirective where
  date : Date
  account : PAccount
  currencies : List String
  meta : Meta
deriving DecidableEq

structure CloseDirective where
  date : Date
  account : PAccount
deriving DecidableEq

structure BalanceDirective where
  date : Date
  account : PAccount
  amount : PAmount
deriving DecidableEq

structure PadDirective where
  date : Date
  account : PAccount
  pad : PAccount
deriving DecidableEq

structure CommodityDirective where
  date : Date
  name : String
deriving DecidableEq

structure DocumentDirective where
  date : Date
  account : PAccount
  filename : String
deriving DecidableEq

structure PriceDirective where
  date : Date
  commodity : String
  amount : PAmount
deriving DecidableEq

structure EventDirective where
  date : Date
  event_type : String
  description : String
deriving DecidableEq

structure NoteDirective where
  date : Date
  account : PAccount
  comment : String
deriving DecidableEq

structure OptionDirective where
  key : String
  value : String
deriving DecidableEq

structure IncludeDirective where
  path : String
deriving DecidableEq

structure CustomDirective where
  date : Date
  custom_type : String
  values : List String
deriving DecidableEq

structure CommentDirective where
  content : String
deriving DecidableEq

inductive Directive where
  | transaction (t : PTransaction)
  | open_ (o : OpenDirective)
  | close (c : CloseDirective)
  | balance (b : BalanceDirective)
  | pad (p : PadDirective)
  | commodity (c : CommodityDirective)
  | document (d : DocumentDirective)
  | price (p : PriceDirective)
  | event (e : EventDirective)
  | note (n : NoteDirective)
  | option (o : OptionDirective)
  | include_ (i : IncludeDirective)
  | custom (c : CustomDirective)
  | comment (c : CommentDirective)
deriving DecidableEq

structure SpanInfo where
  start : ℕ
  stop : ℕ
deriving DecidableEq

structure SpannedDirective where
  data : Directive
  span : SpanInfo
  source : Option String
deriving DecidableEq

/-! ### Text parser (beanweb-parser `parser.rs`) -/

/-- Model of `rust_decimal::Decimal::from_str` on sign/digits/dot forms
(the only shapes this codebase feeds it): optional sign, digits with at most
one decimal point, at least one digit; mantissa must fit 96 bits and the
scale is capped at 28, as in `rust_decimal`. -/
def decParse (cs : List Char) : Option Dec :=
  let sgn : ℤ := if cs.head? = some '-' then -1 else 1
  let body := if cs.head? = some '-' ∨ cs.head? = some '+' then cs.tail else cs
  let intPart := body.takeWhile Char.isDigit
  let rest := body.dropWhile Char.isDigit
  let build : List Char → List Char → Option Dec := fun ip fp =>
    if ip.isEmpty && fp.isEmpty then none
    else
      let m : ℤ := sgn * (digitsToNat ip * 10 ^ fp.length + digitsToNat fp)
      if m.natAbs < 2 ^ 96 ∧ fp.length ≤ 28 then some ⟨m, fp.length⟩ else none
  match rest with
  | [] => build intPart []
  | c :: frac =>
    if c = '.' ∧ (frac.dropWhile Char.isDigit).isEmpty then
      build intPart (frac.takeWhile Char.isDigit)
    else none

def decParseStr (s : String) : Option Dec := decParse s.data

/-- Model of `SimpleBeancountParser::parse_date`: a shape-matched
`YYYY-MM-DD` that is not a valid calendar date falls back to 1970-01-01. -/
def parse_date (y m d : ℕ) : Date :=
  if isValidYmd y m d then ⟨y, m, d⟩ else epochDate

/-- Model of `SimpleBeancountParser::parse_account_name`. -/
def parse_account_name (name : String) : PAccountType × List String :=
  let parts := (splitColon name.data).map (fun cs => (⟨cs⟩ : String))
  match parts with
  | [] => (PAccountType.assets, [])
  | p0 :: restParts =>
    let t :=
      if p0 = "Assets" then PAccountType.assets
      else if p0 = "Liabilities" then PAccountType.liabilities
      else if p0 = "Equity" then PAccountType.equity
      else if p0 = "Income" then PAccountType.income
      else if p0 = "Expenses" then PAccountType.expenses
      else PAccountType.assets
    (t, restParts)

def mkPAccount (name : String) : PAccount :=
  let tc := parse_account_name name
  ⟨tc.1, name, tc.2⟩

/-- Model of `SimpleBeancountParser::is_account_name`. -/
def is_account_name (s : String) : Bool :=
  startsWith s "Assets" || startsWith s "Liabilities" || startsWith s "Equity" ||
    startsWith s "Income" || startsWith s "Expenses"

/-- The five account prefixes of the posting grammar. -/
def accountPrefixes : List (List Char) :=
  ["Assets".data, "Liabilities".data, "Equity".data, "Income".data, "Expenses".data]

/-- Scan the posting amount pattern `-?[\d,]+(?:\.\d+)?` at the head of the
input; return the matched characters and the remainder. -/
def scanAmountTok (cs : List Char) : Option (List Char × List Char) :=
  let sgn : List Char := if cs.head? = some '-' then ['-'] else []
  let afterSgn := if cs.head? = some '-' then cs.tail else cs
  let digs := afterSgn.takeWhile (fun c => c.isDigit || c == ',')
  let rest := afterSgn.dropWhile (fun c => c.isDigit || c == ',')
  if digs.isEmpty then none
  else
    match rest with
    | '.' :: r2 =>
      let fdigs := r2.takeWhile Char.isDigit
      if fdigs.isEmpty then some (sgn ++ digs, rest)
      else some (sgn ++ digs ++ '.' :: fdigs, r2.dropWhile Char.isDigit)
    | _ => some (sgn ++ digs, rest)

/-- Scan the currency pattern `[A-Z][A-Z0-9]*` at the head of the input. -/
def scanCurrencyTok (cs : List Char) : Option (List Char × List Char) :=
  match cs with
  | c :: rest =>
    if 'A' ≤ c ∧ c ≤ 'Z' then
      let more := rest.takeWhile (fun x => ('A' ≤ x ∧ x ≤ 'Z') || x.isDigit)
      some (c :: more, rest.dropWhile (fun x => ('A' ≤ x ∧ x ≤ 'Z') || x.isDigit))
    else none
  | [] => none

/-- Model of `SimpleBeancountParser::parse_posting`.  The source matches one
anchored regex; its token groups are separated by whitespace or distinct
marker characters, so it is reproduced here as a deterministic left-to-right
scan with a final end-of-input check. -/
def parse_posting (line : String) : Option PPosting :=
  let trimmed := trimChars line.data
  if trimmed.isEmpty then none
  else
    let (flag, r0) :=
      match trimmed with
      | c :: r => if c = '!' ∨ c = '*' then (some (String.mk [c]), r) else (none, trimmed)
      | [] => (none, trimmed)
    let r1 := r0.dropWhile isWs
    let acctTok := r1.takeWhile (fun c => !isWs c)
    let afterAcct := r1.dropWhile (fun c => !isWs c)
    if !(accountPrefixes.any (fun pre =>
        startsWithChars (pre ++ [':']) acctTok ∧ (pre ++ [':']).length < acctTok.length)) then
      none
    else
      let r2 := afterAcct.dropWhile isWs
      let (amtTok, r3) :=
        match scanAmountTok r2 with
        | some (tok, rest) => (some tok, rest)
        | none => (none, r2)
      let r4 := r3.dropWhile isWs
      let (curTok, r5) :=
        match scanCurrencyTok r4 with
        | some (tok, rest) => (some tok, rest)
        | none => (none, r4)
      let r6 := r5.dropWhile isWs
      let (costTok, r7) :=
        match r6 with
        | '{' :: r =>
          if (r.dropWhile (· ≠ '}')).isEmpty then (none, r6)
          else (some (r.takeWhile (· ≠ '}')), (r.dropWhile (· ≠ '}')).tail)
        | _ => (none, r6)
      let r8 := r7.dropWhile isWs
      let priceScan : Option ((List Char × List Char) × List Char) :=
        match r8 with
        | '@' :: r =>
          match scanAmountTok (r.dropWhile isWs) with
          | some (ptok, pr) =>
            match scanCurrencyTok (pr.dropWhile isWs) with
            | some (ctok, cr) => some ((ptok, ctok), cr)
            | none => none
          | none => none
        | _ => none
      let (priceTok, r9) :=
        match priceScan with
        | some (pc, rest) => (some pc, rest)
        | none => (none, r8)
      let r10 := r9.dropWhile isWs
      let commentOk : Bool :=
        match r10 with
        | [] => true
        | ';' :: _ => true
        | _ => false
      if !commentOk then none
      else
        let amount : Option (Option PAmount) :=
          match amtTok, curTok with
          | some a, some cur =>
            match decParse (a.filter (· ≠ ',')) with
            | some d => some (some ⟨d, ⟨cur⟩⟩)
            | none => none
          | _, _ => some none
        match amount with
        | none => none
        | some amt =>
          let cost : Option PCost :=
            match costTok with
            | some content =>
              match splitWsChars content with
              | p0 :: p1 :: _ =>
                match decParse (p0.filter (· ≠ ',')) with
                | some d => some ⟨d, ⟨p1⟩, none⟩
                | none => none
              | _ => none
            | none => none
          let price : Option (Option PPrice) :=
            match priceTok with
            | some (ptok, ctok) =>
              match decParse (ptok.filter (· ≠ ',')) with
              | some d => some (some (PPrice.single ⟨d, ⟨ctok⟩⟩))
              | none => none
            | none => some none
          match price with
          | none => none
          | some pr =>
            some ⟨flag, mkPAccount ⟨acctTok⟩, amt, cost, pr⟩

/-- UTF-8 byte length of a character list (Rust `str::len`). -/
def byteLen (cs : List Char) : ℕ := (String.mk cs).utf8ByteSize

/-- Scan an optional quoted payload `(?:"([^"]*)")?` at the head. -/
def scanQuoted (cs : List Char) : Option String × List Char :=
  match cs with
  | '"' :: r =>
    if containsChar r '"' then (some ⟨r.takeWhile (· ≠ '"')⟩, (r.dropWhile (· ≠ '"')).tail)
    else (none, cs)
  | _ => (none, cs)

/-- Model of the transaction-header regex
`^([*!]|txn)\s*(?:"([^"]*)")?\s*(?:"([^"]*)")?\s*(.*)$` of
`parse_transaction_full`. -/
def matchTxnHeader (rest : List Char) :
    Option (String × Option String × Option String × List Char) :=
  let fl : Option (String × List Char) :=
    match rest with
    | '*' :: r => some ("*", r)
    | '!' :: r => some ("!", r)
    | _ => if startsWithChars "txn".data rest then some ("txn", rest.drop 3) else none
  match fl with
  | none => none
  | some (flag, r0) =>
    let r1 := r0.dropWhile isWs
    let (payee, r2) := scanQuoted r1
    let r3 := r2.dropWhile isWs
    let (narr, r4) := scanQuoted r3
    let r5 := r4.dropWhile isWs
    some (flag, payee, narr, r5)

/-- One continuation line of a transaction block: metadata
(`key: value`, where the key holds no space and is no account name) or a
posting line (unparseable lines are dropped). -/
def procContLine (acc : Meta × List PPosting) (line : List Char) : Meta × List PPosting :=
  let trimmed := trimChars line
  if trimmed.isEmpty || startsWithChars [';'] trimmed then acc
  else
    let asPosting : Meta × List PPosting :=
      match parse_posting ⟨trimmed⟩ with
      | some p => (acc.1, acc.2 ++ [p])
      | none => acc
    if containsChar trimmed ':' then
      let before := trimmed.takeWhile (· ≠ ':')
      if !containsChar before ' ' ∧ !is_account_name ⟨before⟩ then
        let value := trimQuotes (trimChars ((trimmed.dropWhile (· ≠ ':')).tail))
        (acc.1.insert ⟨trimChars before⟩ ⟨value⟩, acc.2)
      else asPosting
    else asPosting

/-- Model of `SimpleBeancountParser::parse_transaction_full`. -/
def parse_transaction_full (rest : List Char) (ymd : ℕ × ℕ × ℕ)
    (contLines : List (List Char)) : Directive :=
  let hdr := matchTxnHeader rest
  let flag : Option String := hdr.map (·.1)
  let payee : Option String := (hdr.map (·.2.1)).getD none
  let narr : Option String := (hdr.map (·.2.2.1)).getD none
  let tailToks : List (List Char) :=
    match hdr with
    | some h => splitWsChars h.2.2.2
    | none => []
  let tags := tailToks.filterMap (fun t =>
    match t with
    | '#' :: x => some (⟨x⟩ : String)
    | _ => none)
  let links := tailToks.filterMap (fun t =>
    match t with
    | '^' :: x => some (⟨x⟩ : String)
    | _ => none)
  let mp := contLines.foldl procContLine (Meta.empty, [])
  Directive.transaction
    ⟨parse_date ymd.1 ymd.2.1 ymd.2.2, flag, payee, narr, tags, links, mp.2, mp.1⟩

/-- Default decimal (`Decimal::default()`), used by `unwrap_or_default`. -/
def decZero : Dec := ⟨0, 0⟩

def trimQuotesStr (s : String) : String := ⟨trimQuotes s.data⟩

def parse_open (rest : String) (ymd : ℕ × ℕ × ℕ) : Directive :=
  let parts := splitWs rest
  match parts with
  | _ :: acct :: currencies =>
    Directive.open_ ⟨parse_date ymd.1 ymd.2.1 ymd.2.2, mkPAccount acct, currencies, Meta.empty⟩
  | _ => Directive.comment ⟨rest⟩

def parse_close (rest : String) (ymd : ℕ × ℕ × ℕ) : Directive :=
  let parts := splitWs rest
  match parts with
  | _ :: acct :: _ => Directive.close ⟨parse_date ymd.1 ymd.2.1 ymd.2.2, mkPAccount acct⟩
  | _ => Directive.comment ⟨rest⟩

def parse_balance (rest : String) (ymd : ℕ × ℕ × ℕ) : Directive :=
  let parts := splitWs rest
  match parts with
  | _ :: acct :: amt :: cur :: _ =>
    let d := (decParse (amt.data.filter (· ≠ ','))).getD decZero
    Directive.balance ⟨parse_date ymd.1 ymd.2.1 ymd.2.2, mkPAccount acct, ⟨d, cur⟩⟩
  | _ => Directive.comment ⟨rest⟩

def parse_commodity (rest : String) (ymd : ℕ × ℕ × ℕ) : Directive :=
  let parts := splitWs rest
  match parts with
  | _ :: nm :: _ => Directive.commodity ⟨parse_date ymd.1 ymd.2.1 ymd.2.2, nm⟩
  | _ => Directive.comment ⟨rest⟩

def parse_pad (rest : String) (ymd : ℕ × ℕ × ℕ) : Directive :=
  let parts := splitWs rest
  match parts with
  | _ :: acct :: padAcct :: _ =>
    Directive.pad ⟨parse_date ymd.1 ymd.2.1 ymd.2.2, mkPAccount acct, mkPAccount padAcct⟩
  | _ => Directive.comment ⟨rest⟩

def parse_document (rest : String) (ymd : ℕ × ℕ × ℕ) : Directive :=
  let parts := splitWs rest
  match parts with
  | _ :: acct :: f0 :: fs =>
    Directive.document ⟨parse_date ymd.1 ymd.2.1 ymd.2.2, mkPAccount acct,
      String.intercalate " " (f0 :: fs)⟩
  | _ => Directive.comment ⟨rest⟩

def parse_price (rest : String) (ymd : ℕ × ℕ × ℕ) : Directive :=
  let parts := splitWs rest
  match parts with
  | _ :: com :: amt :: cur :: _ =>
    let d := (decParse (amt.data.filter (· ≠ ','))).getD decZero
    Directive.price ⟨parse_date ymd.1 ymd.2.1 ymd.2.2, com, ⟨d, cur⟩⟩
  | _ => Directive.comment ⟨rest⟩

def parse_note (rest : String) (ymd : ℕ × ℕ × ℕ) : Directive :=
  let parts := splitn 3 rest
  match parts with
  | _ :: acct :: c0 :: cs =>
    Directive.note ⟨parse_date ymd.1 ymd.2.1 ymd.2.2, mkPAccount acct,
      String.intercalate " " (c0 :: cs)⟩
  | _ => Directive.comment ⟨rest⟩

def parse_event (rest : String) (ymd : ℕ × ℕ × ℕ) : Directive :=
  let parts := splitn 3 rest
  match parts with
  | _ :: ty :: d0 :: ds =>
    Directive.event ⟨parse_date ymd.1 ymd.2.1 ymd.2.2, ty, String.intercalate " " (d0 :: ds)⟩
  | _ => Directive.comment ⟨rest⟩

def parse_option (rest : String) : Directive :=
  let parts := splitn 3 rest
  match parts with
  | _ :: k :: v :: _ => Directive.option ⟨trimQuotesStr k, trimQuotesStr v⟩
  | _ => Directive.comment ⟨rest⟩

def parse_include (rest : String) : Directive :=
  let parts := splitn 2 rest
  match parts with
  | _ :: p :: _ => Directive.include_ ⟨trimQuotesStr p⟩
  | _ => Directive.comment ⟨rest⟩

def parse_custom (rest : String) (ymd : ℕ × ℕ × ℕ) : Directive :=
  let parts := splitWs rest
  match parts with
  | _ :: ty :: v0 :: vs =>
    Directive.custom ⟨parse_date ymd.1 ymd.2.1 ymd.2.2, ty, v0 :: vs⟩
  | _ => Directive.comment ⟨rest⟩

/-- Model of the date-line regex `^(\d{4}-\d{2}-\d{2})\s+(.+)$` applied to a
trimmed line (so the dead backtracking case of a whitespace-only remainder
cannot arise): four, two and two digits with hyphens, at least one
whitespace, then a nonempty remainder. -/
def dateShape (cs : List Char) : Option ((ℕ × ℕ × ℕ) × List Char) :=
  match cs with
  | y1 :: y2 :: y3 :: y4 :: '-' :: m1 :: m2 :: '-' :: d1 :: d2 :: rest =>
    if [y1, y2, y3, y4, m1, m2, d1, d2].all Char.isDigit then
      let ws := rest.takeWhile isWs
      let t := rest.dropWhile isWs
      if ws.isEmpty ∨ t.isEmpty then none
      else some ((digitsToNat [y1, y2, y3, y4], digitsToNat [m1, m2], digitsToNat [d1, d2]), t)
    else none
  | _ => none

/-- Model of `SimpleBeancountParser::parse_line` (applied to a trimmed line,
as in the source's main loop). -/
def parse_line (line : List Char) (start lineNumber : ℕ) (source : Option String) :
    Option SpannedDirective :=
  match dateShape line with
  | some (ymd, restChars) =>
    let rest : String := ⟨restChars⟩
    let d :=
      if startsWith rest "open " then parse_open rest ymd
      else if startsWith rest "close " then parse_close rest ymd
      else if startsWith rest "balance " then parse_balance rest ymd
      else if startsWith rest "commodity " then parse_commodity rest ymd
      else if startsWith rest "pad " then parse_pad rest ymd
      else if startsWith rest "document " then parse_document rest ymd
      else if startsWith rest "price " then parse_price rest ymd
      else if startsWith rest "note " then parse_note rest ymd
      else if startsWith rest "event " then parse_event rest ymd
      else if startsWith rest "option " then parse_option rest
      else if startsWith rest "include " then parse_include rest
      else if startsWith rest "custom " then parse_custom rest ymd
      else Directive.comment ⟨(⟨line⟩ : String)⟩
    some ⟨d, ⟨lineNumber, start + byteLen line⟩, source⟩
  | none =>
    let trimmed := trimChars line
    if startsWithChars "option ".data trimmed then
      some ⟨parse_option ⟨trimmed⟩, ⟨lineNumber, start + byteLen line⟩, source⟩
    else if startsWithChars "include ".data trimmed then
      some ⟨parse_include ⟨trimmed⟩, ⟨lineNumber, start + byteLen line⟩, source⟩
    else if startsWithChars "pushtag ".data trimmed then
      some ⟨Directive.comment ⟨(⟨line⟩ : String)⟩, ⟨lineNumber, start + byteLen line⟩, source⟩
    else if startsWithChars "pophtag ".data trimmed then
      some ⟨Directive.comment ⟨(⟨line⟩ : String)⟩, ⟨lineNumber, start + byteLen line⟩, source⟩
    else none

/-- Continuation-line test of `parse_directive_block`: nonempty and starting
with a space or tab. -/
def isContLine (l : List Char) : Bool :=
  !l.isEmpty && (l.head? == some ' ' || l.head? == some '\t')

/-- Model of `SimpleBeancountParser::parse_directive_block`. -/
def parse_directive_block (line : List Char) (following : List (List Char))
    (byteStart lineNumber : ℕ) (source : Option String) :
    Option (SpannedDirective × ℕ) :=
  let trimmed := trimChars line
  match dateShape trimmed with
  | none => none
  | some (ymd, restChars) =>
    let rest : String := ⟨restChars⟩
    let isTxn := startsWithChars ['*'] restChars ∨ startsWithChars ['!'] restChars ∨
      startsWithChars "txn ".data restChars
    if isTxn then
      let contLines := following.takeWhile isContLine
      let consumed := 1 + contLines.length
      let endPos := contLines.foldl (fun a l => a + byteLen l + 1) (byteStart + byteLen line)
      some (⟨parse_transaction_full restChars ymd contLines, ⟨lineNumber, endPos⟩, source⟩,
        consumed)
    else if startsWith rest "commodity " then
      let contLines := following.takeWhile isContLine
      let consumed := 1 + contLines.length
      let endPos := contLines.foldl (fun a l => a + byteLen l + 1) (byteStart + byteLen line)
      some (⟨parse_commodity rest ymd, ⟨lineNumber, endPos⟩, source⟩, consumed)
    else none

/-- Model of Rust `str::lines`. -/
def splitNl : List Char → List (List Char)
  | [] => [[]]
  | c :: rest =>
    if c = '\n' then [] :: splitNl rest
    else match splitNl rest with
      | [] => [[c]]
      | h :: t => (c :: h) :: t

def stripCr (l : List Char) : List Char :=
  if l.getLast? = some '\r' then l.dropLast else l

def rustLines (s : String) : List (List Char) :=
  match s.data with
  | [] => []
  | cs =>
    let ps := splitNl cs
    let ps := if cs.getLast? = some '\n' then ps.dropLast else ps
    ps.map stripCr

/-- Main loop of `SimpleBeancountParser::parse_with_source`: blank, `;`, `#`
and org-mode `*` header lines are skipped (a line starting `*` never matches
the date regex, so the source's date re-check there is vacuous); a date line
opens a block directive or a single-line directive; remaining lines are
dropped.  `idx` is the 0-based line index and `pos` the running byte
offset. -/
def parseLoop (source : Option String) : List (List Char) → ℕ → ℕ → List SpannedDirective
  | [], _, _ => []
  | line :: rest, idx, pos =>
    let trimmed := trimChars line
    if trimmed.isEmpty || startsWithChars [';'] trimmed || startsWithChars ['#'] trimmed then
      parseLoop source rest (idx + 1) (pos + byteLen line + 1)
    else if startsWithChars ['*'] trimmed then
      parseLoop source rest (idx + 1) (pos + byteLen line + 1)
    else
      match parse_directive_block line rest pos (idx + 1) source with
      | some (dv, consumed) =>
        dv :: parseLoop source (rest.drop (consumed - 1)) (idx + consumed)
          ((rest.take (consumed - 1)).foldl (fun a l => a + byteLen l + 1)
            (pos + byteLen line + 1))
      | none =>
        match parse_line trimmed pos (idx + 1) source with
        | some dv => dv :: parseLoop source rest (idx + 1) (pos + byteLen line + 1)
        | none => parseLoop source rest (idx + 1) (pos + byteLen line + 1)
termination_by lines => lines.length
decreasing_by
  all_goals simp only [List.length_cons]
  all_goals try omega
  all_goals have hld := List.length_drop (consumed - 1) rest
  all_goals omega

/-- Model of `SimpleBeancountParser::parse_with_source` (always `Ok`). -/
def parse_with_source (content : String) (source : Option String) : List SpannedDirective :=
  parseLoop source (rustLines content) 0 0

/-! ### Core ledger model (beanweb-core `lib.rs`) -/

inductive CAccountType where
  | assets
  | liabilities
  | equity
  | income
  | expenses
deriving DecidableEq, Repr

inductive AccountStatus where
  | opened
  | closed
  | paused
deriving DecidableEq, Repr

/-- The account's "latest balance" snapshot, stored in Rust as the JSON
object `{"amount", "currency", "date"}`.  The date is structured here: it is
always written by `format_date`, whose output `chrono` reparses, so the
source's unparseable-date branches are unreachable. -/
structure BalSnap where
  amount : String
  currency : String
  date : Date
deriving DecidableEq, Repr

structure Account where
  name : String
  account_type : CAccountType
  status : AccountStatus
  balance : Option BalSnap
  currency : Option String
  open_date : Option Date
  close_date : Option Date
  aliasName : Option String
  note : Option String
  tags : List String
deriving DecidableEq, Repr

structure Posting where
  account : String
  amount : String
  currency : String
  cost : Option String
  price : Option String
  balance : Option String
  metadata : List (String × String)
deriving DecidableEq, Repr

structure Transaction where
  id : String
  date : Date
  time : String
  payee : String
  narration : String
  postings : List Posting
  flag : Option String
  tags : List String
  links : List String
  metadata : List (String × String)
  source : Option String
  line : Option ℕ
deriving DecidableEq, Repr

structure Commodity where
  name : String
  precision : ℕ
deriving DecidableEq, Repr

structure BalanceEntry where
  account : String
  amount : String
  currency : String
  date : Date
deriving DecidableEq, Repr

structure PadEntry where
  account : String
  source_account : String
  date : Date
deriving DecidableEq, Repr

structure LedgerData where
  accounts : List Account
  transactions : List Transaction
  commodities : List Commodity
  balances : List BalanceEntry
  pads : List PadEntry
deriving DecidableEq, Repr

def LedgerData.empty : LedgerData := ⟨[], [], [], [], []⟩

/-- Environment for the pieces of the source the embedding keeps abstract:
`short_hash` (a `DefaultHasher`/SipHash digest whose exact value no claim
depends on). -/
structure Env where
  hash : String → String

/-- Model of `Ledger::format_date` / chrono `%Y-%m-%d`: zero-padded
`YYYY-MM-DD`. -/
def formatDate (d : Date) : String :=
  ⟨padChars 4 d.y ++ '-' :: padChars 2 d.m ++ '-' :: padChars 2 d.d⟩

/-- Model of `beanweb_parser::short_hash`-based `generate_txn_id`. -/
def generate_txn_id (env : Env) (source : Option String) (line : ℕ) (content : String) :
    String :=
  let sourcePart : String :=
    ⟨replaceChar (replaceChar (source.getD "unknown").data '/' '-') ':' '-'⟩
  "txn-" ++ sourcePart ++ ":" ++ (⟨natChars line⟩ : String) ++ ":" ++ env.hash content

/-- Model of `Ledger::map_account_type`. -/
def map_account_type : PAccountType → CAccountType
  | .assets => .assets
  | .liabilities => .liabilities
  | .equity => .equity
  | .income => .income
  | .expenses => .expenses

/-- Scan one or two digits (chrono's flexible numeric field). -/
def scanNum2 (cs : List Char) : Option (ℕ × List Char) :=
  match cs with
  | a :: b :: r =>
    if a.isDigit then
      if b.isDigit then some (digitsToNat [a, b], r) else some (digitVal a, b :: r)
    else none
  | [a] => if a.isDigit then some (digitVal a, []) else none
  | [] => none

/-- Parse `%H:%M:%S` at the head, with chrono's range checks (leap-second
inputs with second 60 are not modelled). -/
def scanHMS (cs : List Char) : Option ((ℕ × ℕ × ℕ) × List Char) :=
  match scanNum2 cs with
  | some (h, ':' :: r1) =>
    match scanNum2 r1 with
    | some (m, ':' :: r2) =>
      match scanNum2 r2 with
      | some (s, r3) =>
        if h ≤ 23 ∧ m ≤ 59 ∧ s ≤ 59 then some ((h, m, s), r3) else none
      | none => none
    | _ => none
  | _ => none

/-- Parse `%Y-%m-%d` at the head (four-digit year, as in all inputs this
codebase produces). -/
def scanYmdDate (cs : List Char) : Option (List Char) :=
  match cs with
  | y1 :: y2 :: y3 :: y4 :: '-' :: r =>
    if [y1, y2, y3, y4].all Char.isDigit then
      match scanNum2 r with
      | some (m, '-' :: r1) =>
        match scanNum2 r1 with
        | some (d, r2) =>
          if isValidYmd (digitsToNat [y1, y2, y3, y4]) m d then some r2 else none
        | none => none
      | _ => none
    else none
  | _ => none

/-- Try one time string against the format ladder of
`Ledger::extract_time_from_meta`. -/
def tryTimeValue (v : List Char) : Option (ℕ × ℕ × ℕ) :=
  match scanHMS v with
  | some (t, []) => some t
  | _ =>
    match scanHMS v with
    | some (t, '.' :: fr) =>
      if !fr.isEmpty ∧ fr.all Char.isDigit then some t else tryTimeTail v
    | _ => tryTimeTail v
where
  tryTimeTail (v : List Char) : Option (ℕ × ℕ × ℕ) :=
    let dt : List Char → Option ((ℕ × ℕ × ℕ) × List Char) := fun cs =>
      match scanYmdDate cs with
      | some (' ' :: r) => scanHMS r
      | _ => none
    match dt v with
    | some (t, []) => some t
    | some (t, '.' :: fr) =>
      if !fr.isEmpty ∧ fr.all Char.isDigit then some t else tryTimeSplit v dt
    | _ => tryTimeSplit v dt
  tryTimeSplit (v : List Char)
      (dt : List Char → Option ((ℕ × ℕ × ℕ) × List Char)) : Option (ℕ × ℕ × ℕ) :=
    match splitWsChars v with
    | p0 :: p1 :: _ =>
      match dt (p0 ++ ' ' :: p1) with
      | some (t, []) => some t
      | _ => none
    | _ => none

/-- Format `%H:%M:%S`, zero-padded. -/
def timeFmt (t : ℕ × ℕ × ℕ) : String :=
  ⟨padChars 2 t.1 ++ ':' :: padChars 2 t.2.1 ++ ':' :: padChars 2 t.2.2⟩

/-- Model of `Ledger::extract_time_from_meta`: walk the known time keys; an
unparseable value moves on to the next key; no hit yields the empty
string. -/
def extract_time_from_meta (meta : Meta) : String :=
  let keys := ["time", "trade_time", "tgbot_time", "payTime", "created_at"]
  let rec go : List String → String
    | [] => ""
    | k :: ks =>
      match meta.get k with
      | some v =>
        match tryTimeValue v.data with
        | some t => timeFmt t
        | none => go ks
      | none => go ks
  go keys

/-- Model of `Ledger::build_transaction_content`. -/
def build_transaction_content (t : PTransaction) : String :=
  let base := formatDate t.date ++ " " ++ t.flag.getD "" ++ " \"" ++ t.payee.getD "" ++
    "\" \"" ++ t.narration.getD "" ++ "\""
  let base := t.tags.foldl (fun s tag => s ++ " #" ++ tag) base
  let base := t.links.foldl (fun s l => s ++ " ^" ++ l) base
  t.postings.foldl (fun s p =>
    let s := s ++ "\n    " ++ p.account.name
    match p.amount with
    | some a => s ++ " " ++ decToString a.amount ++ " " ++ a.currency
    | none => s) base

/-- Model of `Ledger::convert_transaction`. -/
def convert_transaction (env : Env) (t : PTransaction) (line : ℕ)
    (source : Option String) : Transaction :=
  let time_str := extract_time_from_meta t.meta
  let postings := t.postings.map (fun p =>
    let amount_str := p.amount.map (fun a => decToString a.amount ++ " " ++ a.currency)
    let currency := (p.amount.map (·.currency)).getD ""
    let cost_str := p.cost.map (fun c =>
      "\x7b" ++ decToString c.amount ++ " " ++ c.currency ++ "\x7d")
    let price_str := p.price.map (fun pr =>
      match pr with
      | .single a => "@ " ++ decToString a.amount ++ " " ++ a.currency
      | .total a => "@@ " ++ decToString a.amount ++ " " ++ a.currency)
    let full_amount :=
      match amount_str, cost_str, price_str with
      | some amt, some cost, some price => amt ++ " " ++ cost ++ " " ++ price
      | some amt, some cost, none => amt ++ " " ++ cost
      | some amt, none, some price => amt ++ " " ++ price
      | some amt, none, none => amt
      | _, _, _ => ""
    (⟨p.account.name, full_amount, currency, cost_str, price_str, none, []⟩ : Posting))
  let content := build_transaction_content t
  let id := generate_txn_id env source line content
  ⟨id, t.date, time_str, t.payee.getD "", t.narration.getD "", postings, t.flag,
    t.tags, t.links, t.meta, source, some line⟩

/-- Update the first element satisfying `p` (Rust `iter_mut().find`). -/
def updateFirst (l : List α) (p : α → Bool) (f : α → α) : List α :=
  match l with
  | [] => []
  | x :: xs => if p x then f x :: xs else x :: updateFirst xs p f

/-- One step of the second pass of `Ledger::process_result`, carrying the
`seen_accounts` set alongside the data. -/
def secondStep (env : Env) (st : List String × LedgerData) (dv : SpannedDirective) :
    List String × LedgerData :=
  match dv.data with
  | .open_ o =>
    if st.1.contains o.account.name then st
    else
      (o.account.name :: st.1,
        { st.2 with accounts := st.2.accounts ++ [{
            name := o.account.name
            account_type := map_account_type o.account.account_type
            status := .opened
            balance := none
            currency := o.currencies.head?
            open_date := some o.date
            close_date := none
            aliasName := none
            note := none
            tags := [] }] })
  | .close c =>
    (st.1, { st.2 with accounts := (updateFirst st.2.accounts
      (fun a => a.name == c.account.name)
      (fun a => { a with status := .closed, close_date := some c.date })) })
  | .transaction t =>
    (st.1, { st.2 with transactions :=
      (st.2.transactions ++ [convert_transaction env t dv.span.start dv.source]) })
  | .balance b =>
    let snap : BalSnap := ⟨decToString b.amount.amount, b.amount.currency, b.date⟩
    let accounts := updateFirst st.2.accounts (fun a => a.name == b.account.name) (fun a =>
      match a.balance with
      | some old => if old.date < b.date then { a with balance := some snap } else a
      | none => { a with balance := some snap })
    let entry : BalanceEntry :=
      ⟨b.account.name, decToString b.amount.amount, b.amount.currency, b.date⟩
    (st.1, { st.2 with accounts := accounts, balances := st.2.balances ++ [entry] })
  | .pad _ => st
  | _ => st

/-- Stable insertion by date (Rust's stable `sort_by` on the date field):
an element goes after all existing elements with date `≤` its own. -/
def insertByDate (x : Date × String × String) :
    List (Date × String × String) → List (Date × String × String)
  | [] => [x]
  | y :: ys => if x.1 < y.1 then x :: y :: ys else y :: insertByDate x ys

def sortByDate (l : List (Date × String × String)) : List (Date × String × String) :=
  l.foldl (fun acc x => insertByDate x acc) []

/-- The `target_amount`/`target_currency` computation of the third pass of
`Ledger::process_result`, before the snapshot/zero fallbacks. -/
def padTargetRaw (data : LedgerData) (pad : PadDirective) : String × String :=
  let pad_date := pad.date
  let isIncomeExpense := startsWith pad.pad.name "Income:" || startsWith pad.pad.name "Expenses:"
  if isIncomeExpense then
    let source_account := pad.account.name
    let source_balances := sortByDate (data.balances.filterMap (fun b =>
      if b.account == source_account then some (b.date, b.amount, b.currency) else none))
    match source_balances.findIdx? (fun t => pad_date ≤ t.1) with
    | some i =>
      match source_balances.get? i with
      | some (_, curr_amt, curr_curr) =>
        let curr_amount := (parseF64 curr_amt).getD 0
        match (if 0 < i then source_balances.get? (i - 1) else none) with
        | some (_, prev_amt, _) =>
          let prev_amount := (parseF64 prev_amt).getD 0
          let balance_change := curr_amount - prev_amount
          let prev_balance_date := (source_balances.find? (fun t => t.1 < pad_date)).map (·.1)
          let curr_balance_date := (source_balances.find? (fun t => pad_date ≤ t.1)).map (·.1)
          let other_tx_sum := data.transactions.foldl (fun s tx =>
            if (match prev_balance_date with
                | some pbd => decide (tx.date ≤ pbd)
                | none => false) then s
            else if (match curr_balance_date with
                | some cbd => decide (cbd ≤ tx.date)
                | none => false) then s
            else if tx.postings.any (fun p => p.account == pad.pad.name) then s
            else tx.postings.foldl (fun s2 p =>
              if p.account == source_account then
                match (splitWsChars p.amount.data).head? with
                | some tok =>
                  match parseF64Chars tok with
                  | some v => s2 + v
                  | none => s2
                | none => s2
              else s2) s) (0 : ℚ)
          let pad_difference := balance_change - other_tx_sum
          (fmt2 (-pad_difference), curr_curr)
        | none => ("", curr_curr)
      | none => ("", "")
    | none => ("", "")
  else
    match data.balances.find? (fun b =>
        b.account == pad.account.name && decide (pad_date ≤ b.date)) with
    | some b => (b.amount, if b.currency.isEmpty then "CNY" else b.currency)
    | none => ("", "")

/-- The final `target_num` of the third pass for one pad: the raw target
amount, the account-snapshot fallback when it is empty, the `"0.00"`
default, parsed as `f64`. -/
def padTargetNum (data : LedgerData) (pad : PadDirective) : ℚ × String :=
  let raw := padTargetRaw data pad
  let withFallback :=
    if raw.1 = "" then
      match data.accounts.find? (fun a => a.name == pad.account.name) with
      | some acc =>
        match acc.balance with
        | some snap => (snap.amount, snap.currency)
        | none => raw
      | none => raw
    else raw
  let ta_tc := if withFallback.1 = "" then ("0.00", "CNY") else withFallback
  ((parseF64 ta_tc.1).getD 0, ta_tc.2)

/-- The synthetic transaction generated for one pad directive against the
data accumulated so far (its `PadEntry` already pushed). -/
def synthPadTx (data : LedgerData) (pad : PadDirective) : Transaction :=
  let tn := padTargetNum data pad
  { id := "pad-" ++ formatDate pad.date
    date := pad.date
    time := ""
    payee := ""
    narration := pad.account.name ++ " from " ++ pad.pad.name
    postings := [
      ⟨pad.account.name, fmt2 (-tn.1), tn.2, none, none, none, []⟩,
      ⟨pad.pad.name, fmt2 tn.1, tn.2, none, none, none, []⟩]
    flag := none
    tags := ["pad"]
    links := []
    metadata := [("pad_source", pad.pad.name), ("pad_date", formatDate pad.date)]
    source := none
    line := none }

/-- One step of the third pass: push the `PadEntry`, work out the padding
amount, and append the synthetic pad transaction. -/
def thirdStep (data : LedgerData) (pad : PadDirective) : LedgerData :=
  let data1 := { data with pads := data.pads ++ [(⟨pad.account.name, pad.pad.name, pad.date⟩ : PadEntry)] }
  { data1 with transactions := data1.transactions ++ [synthPadTx data1 pad] }

/-- The pad directives collected by the first pass of `process_result`. -/
def padsOf (directives : List SpannedDirective) : List PadDirective :=
  directives.filterMap (fun d =>
    match d.data with
    | .pad p => some p
    | _ => none)

/-- Model of `Ledger::process_result`: clear the data, collect pads, run the
second pass in directive order, then synthesize one transaction per pad. -/
def processResult (env : Env) (directives : List SpannedDirective) : LedgerData :=
  let st := directives.foldl (secondStep env) ([], LedgerData.empty)
  (padsOf directives).foldl thirdStep st.2

/-- Model of `Ledger::account`: first account with the exact name. -/
def accountLookup (data : LedgerData) (name : String) : Option Account :=
  data.accounts.find? (fun a => a.name == name)

/-- Model of `Ledger::transaction`: first transaction with the identifier. -/
def transactionLookup (data : LedgerData) (id : String) : Option Transaction :=
  data.transactions.find? (fun t => t.id == id)

/-- The known-total accumulation step of `calculate_posting_amount`:
non-empty postings with a nonzero parsed amount are summed and flagged. -/
def calcStep (acc : ℚ × Bool) (p : Posting) : ℚ × Bool :=
  if !p.amount.data.isEmpty then
    let amount := parse_amount p.amount
    if amount ≠ 0 then (acc.1 + amount, true) else acc
  else acc

/-- Model of `Ledger::calculate_posting_amount`: an explicit amount on the
first posting of the account wins; otherwise the negated sum of the nonzero
parsed amounts of the non-empty postings (0 when there are none). -/
def calculate_posting_amount (tx : Transaction) (account_name : String) : ℚ :=
  let explicitAmt : Option ℚ :=
    match tx.postings.find? (fun p => p.account == account_name) with
    | some p => if !p.amount.data.isEmpty then some (parse_amount p.amount) else none
    | none => none
  match explicitAmt with
  | some v => v
  | none =>
    let kt := tx.postings.foldl calcStep (0, false)
    if kt.2 then -kt.1 else 0

/-! ### Time context (beanweb-core `time.rs`) -/

inductive TimeRange where
  | month
  | quarter
  | year
  | all
  | custom
deriving DecidableEq, Repr

structure TimeContext where
  range : TimeRange
  custom_start : Option Date
  custom_end : Option Date
deriving DecidableEq, Repr

/-- Model of `TimeContext::new`. -/
def TimeContext.new (r : TimeRange) : TimeContext := ⟨r, none, none⟩

/-- Model of `TimeContext::custom`. -/
def TimeContext.mkCustom (s e : Date) : TimeContext := ⟨.custom, some s, some e⟩

/-- Model of `NaiveDate::from_ymd_opt`. -/
def fromYmdOpt (y m d : ℕ) : Option Date :=
  if isValidYmd y m d then some ⟨y, m, d⟩ else none

/-- Model of `NaiveDate::pred_opt`: the previous calendar day. -/
def predOpt (dt : Date) : Option Date :=
  if 1 < dt.d then some ⟨dt.y, dt.m, dt.d - 1⟩
  else if 1 < dt.m then some ⟨dt.y, dt.m - 1, daysInMonth dt.y (dt.m - 1)⟩
  else if 0 < dt.y then some ⟨dt.y - 1, 12, 31⟩
  else none

/-- Model of `TimeContext::start_date`, with "today" made an explicit
argument in place of `Utc::now().date_naive()`. -/
def TimeContext.start_date (tc : TimeContext) (today : Date) : Option Date :=
  match tc.range with
  | .month => some ((fromYmdOpt today.y today.m 1).getD today)
  | .quarter => fromYmdOpt today.y (((today.m - 1) / 3) * 3 + 1) 1
  | .year => fromYmdOpt today.y 1 1
  | .all => none
  | .custom => tc.custom_start

/-- Model of `TimeContext::end_date` ("today" explicit). -/
def TimeContext.end_date (tc : TimeContext) (today : Date) : Option Date :=
  match tc.range with
  | .month => some (((fromYmdOpt today.y (today.m + 1) 1).bind predOpt).getD today)
  | .quarter =>
    ((fromYmdOpt today.y ((((today.m - 1) / 3) + 1) * 3 + 1) 1).bind predOpt).orElse
      (fun _ => some today)
  | .year => fromYmdOpt today.y 12 31
  | .all => none
  | .custom => tc.custom_end

/-- Model of `TimeContext::contains`. -/
def TimeContext.containsDate (tc : TimeContext) (today date : Date) : Bool :=
  match tc.start_date today, tc.end_date today with
  | none, none => true
  | some s, none => decide (s ≤ date)
  | none, some e => decide (date ≤ e)
  | some s, some e => decide (s ≤ date) && decide (date ≤ e)

/-! ### Balance timeline (beanweb-api `routes/accounts/page.rs`) -/

/-- Model of page.rs `parse_amount`: commas removed, then scan for a digit;
a `-` seen anywhere since the last non-digit non-minus character marks the
number negative. -/
def pageParseAmountChars : List Char → Bool → ℚ
  | [], _ => 0
  | c :: rest, hasMinus =>
    if c.isDigit then
      (parseF64Chars ((if hasMinus then ['-'] else []) ++
        (c :: rest).takeWhile isNumChar)).getD 0
    else if c = '-' then pageParseAmountChars rest true
    else pageParseAmountChars rest false

def pageParseAmount (s : String) : ℚ :=
  if s.data.isEmpty then 0
  else pageParseAmountChars (s.data.filter (fun c => c != ',')) false

/-- Number collector of `Posting::amount_value`: digits plus at most one
decimal point, stopping at anything else. -/
def takeNumChars : List Char → Bool → List Char
  | [], _ => []
  | c :: rest, hasDec =>
    if c.isDigit then c :: takeNumChars rest hasDec
    else if c = '.' ∧ !hasDec then c :: takeNumChars rest true
    else []

/-- Model of `Posting::amount_value`. -/
def Posting.amount_value (p : Posting) : Option ℚ :=
  let cs := p.amount.data
  let signed : Bool × List Char :=
    match cs with
    | '-' :: r => (true, r)
    | _ => (false, cs)
  let cs2 := signed.2.dropWhile (· == ' ')
  let num := takeNumChars cs2 false
  if num.isEmpty then none
  else (parseF64Chars num).map (fun v => if signed.1 then -v else v)

/-- Number scanner of `Posting::price_info`: collect digits and dots, stop
at a space, skip anything else. -/
def priceNumScan : List Char → List Char × List Char
  | [] => ([], [])
  | c :: rest =>
    if c.isDigit || c == '.' then
      let nr := priceNumScan rest
      (c :: nr.1, nr.2)
    else if c == ' ' then ([], c :: rest)
    else priceNumScan rest

/-- Model of `Posting::price_info`. -/
def Posting.price_info (p : Posting) : Option (ℚ × String) :=
  let afterAt := p.amount.data.dropWhile (· ≠ '@')
  match afterAt with
  | '@' :: after =>
    let after_at := trimChars after
    let nr := priceNumScan after_at
    let rest2 := nr.2.dropWhile (· == ' ')
    let currency := trimStr ⟨rest2⟩
    (parseF64Chars nr.1).map (fun v => (v, currency))
  | _ => none

/-- Model of `Posting::total_value`. -/
def Posting.total_value (p : Posting) (operating_currency : String) : ℚ × String :=
  match p.amount_value with
  | none => (0, "")
  | some amount =>
    match p.price_info with
    | some (price, price_currency) =>
      if p.currency ≠ operating_currency ∨ p.currency ≠ price_currency then
        (|amount| * price, price_currency)
      else (amount, p.currency)
    | none => (amount, p.currency)

/-- Model of page.rs `get_posting_amount_for_account`. -/
def get_posting_amount_for_account (tx : Transaction) (account_name : String) : ℚ :=
  let account_postings := tx.postings.filter (fun p => p.account == account_name)
  let expl := account_postings.foldl (fun (acc : ℚ × Bool) p =>
    if !p.amount.data.isEmpty then (acc.1 + (p.total_value "CNY").1, true) else acc)
    (0, false)
  if expl.2 then expl.1
  else
    let kt := tx.postings.foldl (fun (acc : ℚ × Bool) p =>
      if !p.amount.data.isEmpty then
        let amount := (p.total_value "CNY").1
        if amount ≠ 0 then (acc.1 + amount, true) else acc
      else acc) (0, false)
    if kt.2 then -kt.1 else 0

/-- Model of `Transaction::has_time`. -/
def Transaction.has_time (t : Transaction) : Bool :=
  !t.time.data.isEmpty && t.time ≠ "00:00:00"

inductive TimelineItemType where
  | balance
  | pad
  | transaction
deriving DecidableEq, Repr

structure TimelineItem where
  date : Date
  time : String
  item_type : TimelineItemType
  posting_amount : ℚ
  running_balance : ℚ
  description : String
deriving DecidableEq, Repr

/-- First index of a substring (Rust `str::find(&str)`). -/
def findSubstr : List Char → List Char → Option ℕ
  | [], pat => if pat.isEmpty then some 0 else none
  | c :: rest, pat =>
    if startsWithChars pat (c :: rest) then some 0
    else (findSubstr rest pat).map (· + 1)

def containsSubstr (hay pat : List Char) : Bool := (findSubstr hay pat).isSome

/-- The unsorted timeline items of
`render_account_transactions_paginated`: one item per transaction (pads
recognized by a `" from "` narration) followed by one per balance entry. -/
def buildTimelineItems (account_transactions : List Transaction)
    (balances : List BalanceEntry) (account_name : String) : List TimelineItem :=
  let txItems := account_transactions.map (fun tx =>
    let isPad := containsSubstr tx.narration.data " from ".data
    if isPad then
      let posting_amount := get_posting_amount_for_account tx account_name
      let description :=
        match findSubstr tx.narration.data " from ".data with
        | some i =>
          let before : String := ⟨tx.narration.data.take i⟩
          let after : String := ⟨tx.narration.data.drop (i + 6)⟩
          if account_name = before then "Pad to " ++ after else "Pad from " ++ before
        | none => tx.narration
      ({ date := tx.date
         time := if tx.has_time then tx.time else ""
         item_type := .pad
         posting_amount := posting_amount
         running_balance := 0
         description := description } : TimelineItem)
    else
      { date := tx.date
        time := if tx.has_time then tx.time else ""
        item_type := .transaction
        posting_amount := get_posting_amount_for_account tx account_name
        running_balance := 0
        description :=
          if !tx.payee.data.isEmpty ∧ !tx.narration.data.isEmpty then
            tx.payee ++ " - " ++ tx.narration
          else if !tx.payee.data.isEmpty then tx.payee
          else tx.narration })
  let balItems := balances.map (fun b =>
    let amount := pageParseAmount b.amount
    ({ date := b.date
       time := ""
       item_type := .balance
       posting_amount := amount
       running_balance := amount
       description := "Balance 设置余额: " ++ b.amount } : TimelineItem))
  txItems ++ balItems

/-- Lexicographic character-list order (Rust `str` ordering; dates compare
identically as strings and as structured dates here). -/
def strLtChars : List Char → List Char → Bool
  | [], [] => false
  | [], _ :: _ => true
  | _ :: _, [] => false
  | a :: as, b :: bs => if a < b then true else if b < a then false else strLtChars as bs

/-- The sort key of the timeline: date, then time. -/
def itemLt (a b : TimelineItem) : Bool :=
  decide (a.date < b.date) || (a.date == b.date && strLtChars a.time.data b.time.data)

/-- Stable insertion sort on `(date, time)` — the semantics of Rust's stable
`sort_by` with the source's comparator. -/
def insertItem (x : TimelineItem) : List TimelineItem → List TimelineItem
  | [] => [x]
  | y :: ys => if itemLt x y then x :: y :: ys else y :: insertItem x ys

def sortTimeline (l : List TimelineItem) : List TimelineItem :=
  l.foldl (fun acc x => insertItem x acc) []

/-- Forward running-balance pass: a Balance item sets the running balance to
its amount; Pad and Transaction items add theirs. -/
def runForward (bal : ℚ) : List TimelineItem → List TimelineItem
  | [] => []
  | x :: xs =>
    let b : ℚ :=
      match x.item_type with
      | .balance => x.posting_amount
      | .pad => bal + x.posting_amount
      | .transaction => bal + x.posting_amount
    { x with running_balance := b } :: runForward b xs

/-- The computed (forward, oldest-first) timeline of
`render_account_transactions_paginated`; the source sorts the same list
twice with the same comparator, kept here verbatim.  The function's
`initial_balance` argument is only logged by the source; the running balance
starts at `0.0`. -/
def timelineForward (account_transactions : List Transaction)
    (balances : List BalanceEntry) (account_name : String) : List TimelineItem :=
  runForward 0 (sortTimeline (sortTimeline
    (buildTimelineItems account_transactions balances account_name)))

/-- The displayed page: reversed (most recent first), then offset/limit. -/
def timelineDisplay (account_transactions : List Transaction)
    (balances : List BalanceEntry) (account_name : String)
    (limit offsetN : ℕ) : List TimelineItem :=
  (((timelineForward account_transactions balances account_name).reverse).drop offsetN).take
    limit

/-! ### Include resolution (beanweb-parser `lib.rs`,
`DefaultBeancountParser::parse_file_with_base`) -/

/-- Abstract filesystem: file contents by path (a file "exists" exactly when
it is readable, the only distinction the source consults), and glob
expansion results (regular files matching a pattern, in order). -/
structure Fsys where
  readFile : String → Option String
  glob : String → List String

/-- Model of `PathBuf::join` for the relative paths the parser builds. -/
def joinPath (base p : String) : String := base ++ "/" ++ p

/-- Model of `Path::parent`: strip the last `/`-component. -/
def parentPath (p : String) : Option String :=
  if containsChar p.data '/' then
    some ⟨(p.data.reverse.dropWhile (· ≠ '/')).tail.reverse⟩
  else none

inductive PError where
  | ioError
  | syntaxError (location : String)
deriving DecidableEq, Repr

mutual

/-- Model of `parse_file_with_base`: read and parse the file, then resolve
includes recursively.  The Rust code has no cycle guard and can recurse
forever; `fuel` bounds that recursion in the model (exhaustion is an error
that no claim below ever reaches). -/
def parseFileWithBase (fs : Fsys) : ℕ → String → String →
    Except PError (List SpannedDirective)
  | 0, _, _ => .error (.syntaxError "fuel")
  | fuel + 1, path, base_dir =>
    match fs.readFile path with
    | none => .error .ioError
    | some content => goIncludes fs fuel (parse_with_source content (some path)) base_dir

/-- The second pass of `parse_file_with_base`: every non-include directive
is kept; a glob include contributes every matched file's directives; a
non-glob include contributes its file's directives when the resolved path
exists and is silently skipped otherwise. -/
def goIncludes (fs : Fsys) : ℕ → List SpannedDirective → String →
    Except PError (List SpannedDirective)
  | _, [], _ => .ok []
  | fuel, d :: rest, base_dir =>
    match d.data with
    | .include_ inc =>
      let contrib : Except PError (List SpannedDirective) :=
        if containsChar inc.path.data '*' || containsChar inc.path.data '?' then
          globIncludes fs fuel (fs.glob (joinPath base_dir inc.path)) base_dir
        else
          let included := joinPath base_dir inc.path
          if (fs.readFile included).isSome then
            match parseFileWithBase fs fuel included ((parentPath included).getD base_dir) with
            | .ok l => .ok l
            | .error _ => .error (.syntaxError included)
          else .ok []
      match contrib with
      | .error e => .error e
      | .ok l =>
        match goIncludes fs fuel rest base_dir with
        | .ok l2 => .ok (l ++ l2)
        | .error e => .error e
    | _ =>
      match goIncludes fs fuel rest base_dir with
      | .ok l2 => .ok (d :: l2)
      | .error e => .error e

/-- Recursive parsing of every glob-matched file, in order. -/
def globIncludes (fs : Fsys) : ℕ → List String → String →
    Except PError (List SpannedDirective)
  | _, [], _ => .ok []
  | fuel, entry :: es, base_dir =>
    match parseFileWithBase fs fuel entry ((parentPath entry).getD base_dir) with
    | .ok l =>
      match globIncludes fs fuel es base_dir with
      | .ok l2 => .ok (l ++ l2)
      | .error e => .error e
    | .error _ => .error (.syntaxError entry)

end

/-- Model of `parse_file`: the base directory is the entry file's parent. -/
def parseFile (fs : Fsys) (fuel : ℕ) (path : String) :
    Except PError (List SpannedDirective) :=
  parseFileWithBase fs fuel path ((parentPath path).getD ".")

/-! ### Derived definitions used by the theorem statements -/

/-- A fixed trivial hash environment for closed statements. -/
def envTriv : Env := ⟨fun _ => ""⟩

/-- The directive stream of the spec's pad scenario: two balances on
`Assets:X` (100 at 2024-01-01, 150 at 2024-02-01) and a
`pad Assets:X Income:Gift` at 2024-01-15, nothing else. -/
def c2dirs : List SpannedDirective :=
  [⟨.balance ⟨⟨2024, 1, 1⟩, mkPAccount "Assets:X", ⟨⟨100, 0⟩, "CNY"⟩⟩, ⟨1, 0⟩, none⟩,
   ⟨.balance ⟨⟨2024, 2, 1⟩, mkPAccount "Assets:X", ⟨⟨150, 0⟩, "CNY"⟩⟩, ⟨2, 0⟩, none⟩,
   ⟨.pad ⟨⟨2024, 1, 15⟩, mkPAccount "Assets:X", mkPAccount "Income:Gift"⟩, ⟨3, 0⟩, none⟩]

/-- The timeline scenario's −20 transaction on `Assets:X` (2024-01-10). -/
def c5tx1 : Transaction :=
  ⟨"t1", ⟨2024, 1, 10⟩, "", "", "spend",
    [⟨"Assets:X", "-20 CNY", "CNY", none, none, none, []⟩], none, [], [], [], none, none⟩

/-- The timeline scenario's +5 transaction on `Assets:X` (2024-01-20). -/
def c5tx2 : Transaction :=
  ⟨"t2", ⟨2024, 1, 20⟩, "", "", "gain",
    [⟨"Assets:X", "5 CNY", "CNY", none, none, none, []⟩], none, [], [], [], none, none⟩

/-- The timeline scenario's balance assertion (100 at 2024-01-01). -/
def c5bal : BalanceEntry := ⟨"Assets:X", "100", "CNY", ⟨2024, 1, 1⟩⟩

/-- Balance-before-Open stream: `[Balance 150 @2024-02-01, Open Assets:X,
Balance 100 @2024-01-01]`. -/
def c3dirs : List SpannedDirective :=
  [⟨.balance ⟨⟨2024, 2, 1⟩, mkPAccount "Assets:X", ⟨⟨150, 0⟩, "CNY"⟩⟩, ⟨1, 0⟩, none⟩,
   ⟨.open_ ⟨⟨2023, 1, 1⟩, mkPAccount "Assets:X", [], Meta.empty⟩, ⟨2, 0⟩, none⟩,
   ⟨.balance ⟨⟨2024, 1, 1⟩, mkPAccount "Assets:X", ⟨⟨100, 0⟩, "CNY"⟩⟩, ⟨3, 0⟩, none⟩]

/-- An Open for `Assets:X` alone. -/
def c3w1 : List SpannedDirective :=
  [⟨.open_ ⟨⟨2023, 1, 1⟩, mkPAccount "Assets:X", [], Meta.empty⟩, ⟨1, 0⟩, none⟩]

/-- Two balances for `Assets:X`, latest-dated first. -/
def c3w2 : List SpannedDirective :=
  [⟨.balance ⟨⟨2024, 2, 1⟩, mkPAccount "Assets:X", ⟨⟨150, 0⟩, "CNY"⟩⟩, ⟨2, 0⟩, none⟩,
   ⟨.balance ⟨⟨2024, 1, 1⟩, mkPAccount "Assets:X", ⟨⟨100, 0⟩, "CNY"⟩⟩, ⟨3, 0⟩, none⟩]

/-- Two pad directives bearing the same date 2024-01-15. -/
def c8dirs : List SpannedDirective :=
  [⟨.pad ⟨⟨2024, 1, 15⟩, mkPAccount "Assets:X", mkPAccount "Income:A"⟩, ⟨1, 0⟩, none⟩,
   ⟨.pad ⟨⟨2024, 1, 15⟩, mkPAccount "Assets:Y", mkPAccount "Income:B"⟩, ⟨2, 0⟩, none⟩]

/-- The date field a directive carries, when its kind has one. -/
def dirDate : Directive → Option Date
  | .transaction t => some t.date
  | .open_ o => some o.date
  | .close c => some c.date
  | .balance b => some b.date
  | .pad p => some p.date
  | .commodity c => some c.date
  | .document d => some d.date
  | .price p => some p.date
  | .event e => some e.date
  | .note n => some n.date
  | .custom c => some c.date
  | .option _ => none
  | .include_ _ => none
  | .comment _ => none

/-- The balance snapshots contributed by the Balance directives of one
account, in stream order (amount rendered as the stored string). -/
def balancesFor (ds : List SpannedDirective) (name : String) : List BalSnap :=
  ds.filterMap (fun dv =>
    match dv.data with
    | .balance b =>
      if b.account.name = name then
        some ⟨decToString b.amount.amount, b.amount.currency, b.date⟩
      else none
    | _ => none)

/-- The snapshot-update rule of the Balance arm: replace only when the new
date is strictly later. -/
def updSnap (s : Option BalSnap) (e : BalSnap) : Option BalSnap :=
  match s with
  | some old => if old.date < e.date then some e else some old
  | none => some e

/-- State after the second pass. -/
def secondState (env : Env) (ds : List SpannedDirective) : List String × LedgerData :=
  ds.foldl (secondStep env) ([], LedgerData.empty)

/-- The transactions synthesized by the third pass, in pad order. -/
def thirdTxs : LedgerData → List PadDirective → List Transaction
  | _, [] => []
  | data, p :: ps =>
    synthPadTx { data with pads :=
      data.pads ++ [(⟨p.account.name, p.pad.name, p.date⟩ : PadEntry)] } p ::
      thirdTxs (thirdStep data p) ps

/-! ### Supporting lemmas -/

theorem thirdStep_transactions (data : LedgerData) (p : PadDirective) :
    (thirdStep data p).transactions = data.transactions ++
      [synthPadTx { data with pads :=
        data.pads ++ [(⟨p.account.name, p.pad.name, p.date⟩ : PadEntry)] } p] := rfl

theorem thirdStep_accounts (data : LedgerData) (p : PadDirective) :
    (thirdStep data p).accounts = data.accounts := rfl

theorem third_fold_transactions (pads : List PadDirective) (data : LedgerData) :
    (pads.foldl thirdStep data).transactions = data.transactions ++ thirdTxs data pads := by
  induction pads generalizing data with
  | nil => simp [thirdTxs]
  | cons p ps ih =>
    rw [List.foldl_cons, ih, thirdTxs]
    rw [thirdStep_transactions]
    simp

theorem third_fold_accounts (pads : List PadDirective) (data : LedgerData) :
    (pads.foldl thirdStep data).accounts = data.accounts := by
  induction pads generalizing data with
  | nil => rfl
  | cons p ps ih => rw [List.foldl_cons, ih, thirdStep_accounts]

theorem processResult_transactions (env : Env) (ds : List SpannedDirective) :
    (processResult env ds).transactions =
      (secondState env ds).2.transactions ++ thirdTxs (secondState env ds).2 (padsOf ds) := by
  rw [processResult, third_fold_transactions]
  rfl

theorem thirdTxs_length (pads : List PadDirective) (data : LedgerData) :
    (thirdTxs data pads).length = pads.length := by
  induction pads generalizing data with
  | nil => rfl
  | cons p ps ih => rw [thirdTxs]; simp [ih]

/-! ### C7 -/

/-- C7: `TimeContext::new(Year)` yields January 1 and December 31 of the
year of "today", for every clock date; in particular, on 2024-06-15 the
bounds are 2024-01-01 and 2024-12-31. -/
theorem C7_timecontext_year (today : Date) (Y : ℕ) (hy : today.y = Y) :
    (TimeContext.new .year).start_date today = some ⟨Y, 1, 1⟩ ∧
      (TimeContext.new .year).end_date today = some ⟨Y, 12, 31⟩ ∧
      (TimeContext.new .year).start_date ⟨2024, 6, 15⟩ = some ⟨2024, 1, 1⟩ ∧
      (TimeContext.new .year).end_date ⟨2024, 6, 15⟩ = some ⟨2024, 12, 31⟩ := by
  subst hy
  refine ⟨?_, ?_, by decide, by decide⟩
  · simp [TimeContext.new, TimeContext.start_date, fromYmdOpt, isValidYmd, daysInMonth]
  · simp [TimeContext.new, TimeContext.end_date, fromYmdOpt, isValidYmd, daysInMonth]

/-- C7 witness. -/
theorem C7_timecontext_year_witness :
    (TimeContext.new .year).start_date ⟨2024, 6, 15⟩ = some ⟨2024, 1, 1⟩ ∧
      (TimeContext.new .year).end_date ⟨2024, 6, 15⟩ = some ⟨2024, 12, 31⟩ := by
  have h := C7_timecontext_year ⟨2024, 6, 15⟩ 2024 rfl
  exact ⟨h.1, h.2.1⟩

/-! ### C6 -/

/-- C6: a non-glob include whose resolved path does not exist, and a glob
include matching no files, are silently skipped: the include contributes no
directives and no error, the rest of the file parsing unchanged. -/
theorem C6_missing_include_skipped (fs : Fsys) (fuel : ℕ) (inc : IncludeDirective)
    (rest : List SpannedDirective) (base_dir : String) (sp : SpanInfo)
    (src : Option String) :
    ((containsChar inc.path.data '*' = false ∧ containsChar inc.path.data '?' = false ∧
        fs.readFile (joinPath base_dir inc.path) = none) →
      goIncludes fs fuel (⟨.include_ inc, sp, src⟩ :: rest) base_dir =
        goIncludes fs fuel rest base_dir) ∧
    (((containsChar inc.path.data '*' = true ∨ containsChar inc.path.data '?' = true) ∧
        fs.glob (joinPath base_dir inc.path) = []) →
      goIncludes fs fuel (⟨.include_ inc, sp, src⟩ :: rest) base_dir =
        goIncludes fs fuel rest base_dir) := by
  constructor
  · rintro ⟨h1, h2, h3⟩
    rw [goIncludes]
    simp only [h1, h2, Bool.or_self, Bool.false_eq_true, if_false, h3, Option.isSome_none,
      Bool.false_eq_true, if_false]
    rcases goIncludes fs fuel rest base_dir with e | l <;> simp
  · rintro ⟨h1, h2⟩
    rw [goIncludes]
    have hor : (containsChar inc.path.data '*' || containsChar inc.path.data '?') = true := by
      rcases h1 with h | h <;> simp [h]
    simp only [hor, if_true, h2, globIncludes]
    rcases goIncludes fs fuel rest base_dir with e | l <;> simp

/-- C6 witness: an empty filesystem, one missing include and one glob
include, before an open directive. -/
theorem C6_missing_include_skipped_witness :
    (goIncludes ⟨fun _ => none, fun _ => []⟩ 5
        [⟨.include_ ⟨"missing.bean"⟩, ⟨1, 0⟩, none⟩] "." =
      goIncludes ⟨fun _ => none, fun _ => []⟩ 5 [] ".") ∧
    (goIncludes ⟨fun _ => none, fun _ => []⟩ 5
        [⟨.include_ ⟨"sub/*.bean"⟩, ⟨1, 0⟩, none⟩] "." =
      goIncludes ⟨fun _ => none, fun _ => []⟩ 5 [] ".") := by
  constructor
  · exact (C6_missing_include_skipped ⟨fun _ => none, fun _ => []⟩ 5 ⟨"missing.bean"⟩ [] "."
      ⟨1, 0⟩ none).1 ⟨by decide, by decide, rfl⟩
  · exact (C6_missing_include_skipped ⟨fun _ => none, fun _ => []⟩ 5 ⟨"sub/*.bean"⟩ [] "."
      ⟨1, 0⟩ none).2 ⟨Or.inl (by decide), rfl⟩

/-! ### C10 -/

/-- The open-directive account names of a directive list, in order. -/
def openNamesOf (ds : List SpannedDirective) : List String :=
  ds.filterMap (fun dv =>
    match dv.data with
    | .open_ o => some o.account.name
    | _ => none)

theorem updateFirst_eq_self {α : Type} (l : List α) (p : α → Bool) (f : α → α)
    (h : ∀ x ∈ l, p x = false) : updateFirst l p f = l := by
  induction l with
  | nil => rfl
  | cons x xs ih =>
    rw [updateFirst, if_neg (by rw [h x (by simp)]; simp)]
    rw [ih (fun y hy => h y (by simp [hy]))]

theorem updateFirst_map {α β : Type} (l : List α) (p : α → Bool) (f : α → α) (g : α → β)
    (h : ∀ x, g (f x) = g x) : (updateFirst l p f).map g = l.map g := by
  induction l with
  | nil => rfl
  | cons x xs ih =>
    rw [updateFirst]
    split
    · simp [h]
    · simp [ih]

theorem secondStep_account_names (env : Env) (st : List String × LedgerData)
    (dv : SpannedDirective) :
    (secondStep env st dv).2.accounts.map (·.name) = st.2.accounts.map (·.name) ∨
      ∃ o, dv.data = .open_ o ∧
        (secondStep env st dv).2.accounts.map (·.name) =
          st.2.accounts.map (·.name) ++ [o.account.name] := by
  rcases dv with ⟨data, sp, src⟩
  cases data with
  | open_ o =>
    simp only [secondStep]
    by_cases hc : st.1.contains o.account.name = true
    · rw [if_pos hc]
      exact Or.inl rfl
    · rw [if_neg hc]
      exact Or.inr ⟨o, rfl, by simp⟩
  | close c =>
    left
    simp only [secondStep]
    exact updateFirst_map _ _ _ _ (fun x => rfl)
  | balance b =>
    left
    simp only [secondStep]
    apply updateFirst_map
    intro x
    rcases x.balance with _ | old
    · rfl
    · simp only
      split <;> rfl
  | transaction t => exact Or.inl rfl
  | pad p => exact Or.inl rfl
  | commodity c => exact Or.inl rfl
  | document d => exact Or.inl rfl
  | price p => exact Or.inl rfl
  | event e => exact Or.inl rfl
  | note nn => exact Or.inl rfl
  | option o => exact Or.inl rfl
  | include_ i => exact Or.inl rfl
  | custom c => exact Or.inl rfl
  | comment c => exact Or.inl rfl

theorem secondFold_account_names (env : Env) (ds : List SpannedDirective)
    (st : List String × LedgerData) :
    ∀ n, n ∈ (ds.foldl (secondStep env) st).2.accounts.map (·.name) →
      n ∈ st.2.accounts.map (·.name) ∨ n ∈ openNamesOf ds := by
  induction ds generalizing st with
  | nil => intro n hn; exact Or.inl hn
  | cons dv rest ih =>
    intro n hn
    rw [List.foldl_cons] at hn
    have hsub : n ∈ openNamesOf rest → n ∈ openNamesOf (dv :: rest) := by
      intro h
      simp only [openNamesOf, List.filterMap_cons]
      split
      · exact h
      · exact List.mem_cons_of_mem _ h
    rcases ih (secondStep env st dv) n hn with h | h
    · rcases secondStep_account_names env st dv with heq | ⟨o, hdata, heq⟩
      · exact Or.inl (heq ▸ h)
      · rw [heq, List.mem_append] at h
        rcases h with h | h
        · exact Or.inl h
        · right
          rw [List.mem_singleton] at h
          rcases dv with ⟨data, sp2, src2⟩
          simp only at hdata
          subst hdata
          simp [openNamesOf, List.filterMap_cons, h]
    · exact Or.inr (hsub h)

theorem close_step_unprocessed (env : Env) (st : List String × LedgerData)
    (c : CloseDirective) (sp : SpanInfo) (src : Option String)
    (h : ∀ a ∈ st.2.accounts, a.name ≠ c.account.name) :
    secondStep env st ⟨.close c, sp, src⟩ = st := by
  simp only [secondStep]
  rw [updateFirst_eq_self _ _ _ ?_]
  · intro x hx
    simp [h x hx]

/-- C10: a Close directive naming an account with no processed Open leaves
the entire derived state unchanged — no account is created, no status or
close date is set, and no error is raised: the load result equals the one
for the same stream without that Close. -/
theorem C10_close_without_open (env : Env) (ds₁ ds₂ : List SpannedDirective)
    (c : CloseDirective) (sp : SpanInfo) (src : Option String)
    (h : c.account.name ∉ openNamesOf ds₁) :
    processResult env (ds₁ ++ ⟨.close c, sp, src⟩ :: ds₂) =
      processResult env (ds₁ ++ ds₂) := by
  have hpads : padsOf (ds₁ ++ ⟨.close c, sp, src⟩ :: ds₂) = padsOf (ds₁ ++ ds₂) := by
    simp [padsOf, List.filterMap_append]
  have hstep : secondStep env (ds₁.foldl (secondStep env) ([], LedgerData.empty))
      ⟨.close c, sp, src⟩ = ds₁.foldl (secondStep env) ([], LedgerData.empty) := by
    apply close_step_unprocessed
    intro a ha
    intro hcontra
    rcases secondFold_account_names env ds₁ ([], LedgerData.empty) a.name
        (List.mem_map.mpr ⟨a, ha, rfl⟩) with hx | hx
    · simp [LedgerData.empty] at hx
    · exact h (hcontra ▸ hx)
  rw [processResult, processResult, hpads]
  rw [List.foldl_append, List.foldl_cons, hstep, ← List.foldl_append]

/-- C10 witness: closing `Assets:Nope` with only `Assets:X` opened. -/
theorem C10_close_without_open_witness :
    processResult envTriv
        [⟨.open_ ⟨⟨2024, 1, 1⟩, mkPAccount "Assets:X", ["CNY"], Meta.empty⟩, ⟨1, 0⟩, none⟩,
         ⟨.close ⟨⟨2024, 2, 1⟩, mkPAccount "Assets:Nope"⟩, ⟨2, 0⟩, none⟩] =
      processResult envTriv
        [⟨.open_ ⟨⟨2024, 1, 1⟩, mkPAccount "Assets:X", ["CNY"], Meta.empty⟩, ⟨1, 0⟩, none⟩] := by
  have h := C10_close_without_open envTriv
    [⟨.open_ ⟨⟨2024, 1, 1⟩, mkPAccount "Assets:X", ["CNY"], Meta.empty⟩, ⟨1, 0⟩, none⟩] []
    ⟨⟨2024, 2, 1⟩, mkPAccount "Assets:Nope"⟩ ⟨2, 0⟩ none (by decide)
  simpa using h

/-! ### C4 -/

theorem find_append_of_none {α : Type} (l₁ l₂ : List α) (pr : α → Bool)
    (h : ∀ x ∈ l₁, pr x = false) : (l₁ ++ l₂).find? pr = l₂.find? pr := by
  induction l₁ with
  | nil => rfl
  | cons x xs ih =>
    rw [List.cons_append, List.find?_cons, h x (by simp)]
    exact ih (fun y hy => h y (by simp [hy]))

theorem calcFold_characterization (l : List Posting) (init : ℚ × Bool)
    (h : ∀ q ∈ l, q.amount.data.isEmpty = false) :
    (l.foldl calcStep init).1 = init.1 + (l.map (fun q => parse_amount q.amount)).sum ∧
      ((l.foldl calcStep init).2 = true ↔
        (init.2 = true ∨ ∃ q ∈ l, parse_amount q.amount ≠ 0)) := by
  induction l generalizing init with
  | nil => simp
  | cons q qs ih =>
    have hq : q.amount.data.isEmpty = false := h q (by simp)
    have hrest : ∀ x ∈ qs, x.amount.data.isEmpty = false := fun x hx => h x (by simp [hx])
    rw [List.foldl_cons]
    have hstep : calcStep init q =
        if parse_amount q.amount ≠ 0 then (init.1 + parse_amount q.amount, true) else init := by
      rw [calcStep, hq]
      simp
    by_cases hz : parse_amount q.amount ≠ 0
    · rw [hstep, if_pos hz]
      obtain ⟨ih1, ih2⟩ := ih (init.1 + parse_amount q.amount, true) hrest
      constructor
      · rw [ih1]
        simp only [List.map_cons, List.sum_cons]
        ring
      · rw [ih2]
        constructor
        · intro _
          exact Or.inr ⟨q, by simp, hz⟩
        · intro _
          exact Or.inl rfl
    · rw [hstep, if_neg hz]
      obtain ⟨ih1, ih2⟩ := ih init hrest
      push_neg at hz
      constructor
      · rw [ih1]
        simp [hz]
      · rw [ih2]
        constructor
        · rintro (h0 | ⟨x, hx, hnz⟩)
          · exact Or.inl h0
          · exact Or.inr ⟨x, by simp [hx], hnz⟩
        · rintro (h0 | ⟨x, hx, hnz⟩)
          · exact Or.inl h0
          · rcases List.mem_cons.1 hx with rfl | hx2
            · exact absurd hnz (by simpa using hz)
            · exact Or.inr ⟨x, hx2, hnz⟩

theorem parse_amount_ten : parse_amount "10 CNY" = 10 := by
  simp [parse_amount, parseAmountChars, isNumChar, parseF64Chars, parseF64Sign,
    parseF64Rest, digitsToNat, digitVal]

theorem parse_amount_neg_ten : parse_amount "-10 CNY" = -10 := by
  simp [parse_amount, parseAmountChars, isNumChar, parseF64Chars, parseF64Sign,
    parseF64Rest, digitsToNat, digitVal]

/-- C4 counterexample: in a transaction whose single amount-omitted posting
shares its account with an explicit posting, the engine returns the
explicit posting's amount, not the additive inverse of the others' sum.
The claim's premise holds (exactly one omitted posting), its conclusion
fails. -/
theorem C4_counterexample :
    (((⟨"t1", ⟨2024, 1, 5⟩, "", "", "",
        [⟨"Assets:A", "10 CNY", "CNY", none, none, none, []⟩,
         ⟨"Assets:A", "", "", none, none, none, []⟩],
        none, [], [], [], none, none⟩ : Transaction)).postings.filter
          (fun p => p.amount.data.isEmpty)).length = 1 ∧
      calculate_posting_amount
        ⟨"t1", ⟨2024, 1, 5⟩, "", "", "",
          [⟨"Assets:A", "10 CNY", "CNY", none, none, none, []⟩,
           ⟨"Assets:A", "", "", none, none, none, []⟩],
          none, [], [], [], none, none⟩ "Assets:A" = 10 ∧
      parse_amount "10 CNY" = 10 ∧
      ¬ (calculate_posting_amount
          ⟨"t1", ⟨2024, 1, 5⟩, "", "", "",
            [⟨"Assets:A", "10 CNY", "CNY", none, none, none, []⟩,
             ⟨"Assets:A", "", "", none, none, none, []⟩],
            none, [], [], [], none, none⟩ "Assets:A" =
        -(parse_amount "10 CNY")) := by
  have hcalc : calculate_posting_amount
      ⟨"t1", ⟨2024, 1, 5⟩, "", "", "",
        [⟨"Assets:A", "10 CNY", "CNY", none, none, none, []⟩,
         ⟨"Assets:A", "", "", none, none, none, []⟩],
        none, [], [], [], none, none⟩ "Assets:A" = 10 := by
    rw [calculate_posting_amount]
    simp only [List.find?_cons]
    norm_num [parse_amount_ten]
  refine ⟨by decide, hcalc, parse_amount_ten, ?_⟩
  rw [hcalc, parse_amount_ten]
  norm_num

/-- C4 (amended): for every transaction with exactly one amount-omitted
posting whose account differs from every other posting's account, the
engine's computed amount for that posting's account is the additive inverse
of the sum of the other postings' parsed amounts. -/
theorem C4_inferred_amount (tx : Transaction) (l₁ l₂ : List Posting) (p : Posting)
    (hsplit : tx.postings = l₁ ++ p :: l₂)
    (hempty : p.amount.data.isEmpty = true)
    (hothers : ∀ q ∈ l₁ ++ l₂, q.amount.data.isEmpty = false)
    (haccount : ∀ q ∈ l₁ ++ l₂, q.account ≠ p.account) :
    calculate_posting_amount tx p.account =
      -(((l₁ ++ l₂).map (fun q => parse_amount q.amount)).sum) := by
  have h₁ : ∀ q ∈ l₁, q.amount.data.isEmpty = false :=
    fun q hq => hothers q (List.mem_append_left _ hq)
  have h₂ : ∀ q ∈ l₂, q.amount.data.isEmpty = false :=
    fun q hq => hothers q (List.mem_append_right _ hq)
  have hfind : tx.postings.find? (fun q => q.account == p.account) = some p := by
    have hpre : ∀ x ∈ l₁, (fun (q : Posting) => q.account == p.account) x = false := by
      intro x hx
      simp [haccount x (List.mem_append_left _ hx)]
    rw [hsplit, find_append_of_none _ _ _ hpre, List.find?_cons]
    simp
  rw [calculate_posting_amount]
  simp only [hfind, hempty, Bool.not_true]
  rw [if_neg (by simp)]
  have hskip : tx.postings.foldl calcStep (0, false) = (l₁ ++ l₂).foldl calcStep (0, false) := by
    rw [hsplit, List.foldl_append, List.foldl_cons, List.foldl_append]
    congr 1
    rw [calcStep, hempty]
    simp
  rw [hskip]
  obtain ⟨hc1, hc2⟩ := calcFold_characterization (l₁ ++ l₂) (0, false) hothers
  rw [zero_add] at hc1
  by_cases hb : ((l₁ ++ l₂).foldl calcStep (0, false)).2 = true
  · rw [if_pos hb, hc1]
  · rw [if_neg hb]
    have hall : ∀ q ∈ l₁ ++ l₂, parse_amount q.amount = 0 := by
      intro q hq
      by_contra hnz
      exact hb (hc2.mpr (Or.inr ⟨q, hq, hnz⟩))
    have hsum : ((l₁ ++ l₂).map (fun q => parse_amount q.amount)).sum = 0 := by
      apply List.sum_eq_zero
      intro x hx
      rcases List.mem_map.1 hx with ⟨q, hq, rfl⟩
      exact hall q hq
    rw [hsum]
    ring

/-- C4 witness: the spec's own scenario — `Assets:Cash -10 CNY` with the
`Expenses:Food` amount omitted resolves to `10`. -/
theorem C4_inferred_amount_witness :
    calculate_posting_amount
        ⟨"t2", ⟨2024, 1, 5⟩, "", "Shop", "",
          [⟨"Assets:Cash", "-10 CNY", "CNY", none, none, none, []⟩,
           ⟨"Expenses:Food", "", "", none, none, none, []⟩],
          none, [], [], [], none, none⟩ "Expenses:Food" = 10 := by
  have h := C4_inferred_amount
    ⟨"t2", ⟨2024, 1, 5⟩, "", "Shop", "",
      [⟨"Assets:Cash", "-10 CNY", "CNY", none, none, none, []⟩,
       ⟨"Expenses:Food", "", "", none, none, none, []⟩],
      none, [], [], [], none, none⟩
    [⟨"Assets:Cash", "-10 CNY", "CNY", none, none, none, []⟩] []
    ⟨"Expenses:Food", "", "", none, none, none, []⟩
    rfl (by decide) (by decide) (by decide)
  rw [h]
  simp only [List.append_nil, List.map_cons, List.map_nil, List.sum_cons,
    List.sum_nil, parse_amount_neg_ten]
  norm_num [parse_amount, parseAmountChars, isNumChar, parseF64Chars, parseF64Sign,
    parseF64Rest, digitsToNat, digitVal]

/-- C2: on the two-balance pad scenario (`Assets:X` 100 at 2024-01-01, 150 at
2024-02-01, `pad Assets:X Income:Gift` at 2024-01-15, nothing else), the
engine synthesizes exactly one transaction whose `Assets:X` posting carries
`50.00` and whose `Income:Gift` posting carries `-50.00`, which parse back to
`50` and `-50`. -/
theorem C2_pad_amount_fifty :
    (processResult envTriv c2dirs).transactions =
      [{ id := "pad-2024-01-15", date := ⟨2024, 1, 15⟩, time := "", payee := "",
         narration := "Assets:X from Income:Gift",
         postings := [⟨"Assets:X", "50.00", "CNY", none, none, none, []⟩,
                      ⟨"Income:Gift", "-50.00", "CNY", none, none, none, []⟩],
         flag := none, tags := ["pad"], links := [],
         metadata := [("pad_source", "Income:Gift"), ("pad_date", "2024-01-15")],
         source := none, line := none }] ∧
      parse_amount "50.00" = 50 ∧ parse_amount "-50.00" = -50 := by
  have hr : rne (100 * ((100:ℚ) - 150)) = -5000 := by norm_num [rne, Int.fract]
  have hf : fmt2 ((100:ℚ) - 150) = "-50.00" := by
    rw [fmt2, hr]
    simp [fmt2Chars, natChars, padChars, digitChar]
  have hr2 : rne (100 * (50:ℚ)) = 5000 := by norm_num [rne, Int.fract]
  have hf2 : fmt2 (50:ℚ) = "50.00" := by
    rw [fmt2, hr2]
    simp [fmt2Chars, natChars, padChars, digitChar]
  have hr3 : rne (100 * (-50:ℚ)) = -5000 := by norm_num [rne, Int.fract]
  have hf3 : fmt2 (-50:ℚ) = "-50.00" := by
    rw [fmt2, hr3]
    simp [fmt2Chars, natChars, padChars, digitChar]
  refine ⟨?_, ?_, ?_⟩
  · simp [c2dirs, processResult, padsOf, thirdStep, synthPadTx, padTargetNum,
      padTargetRaw, secondStep, LedgerData.empty, updateFirst, decToString, decChars,
      natChars, padChars, digitChar, formatDate, sortByDate, insertByDate,
      startsWith, startsWithChars, mkPAccount, parse_account_name, splitColon,
      List.findIdx?, Date.lt_iff, Date.le_iff, parseF64, parseF64Chars,
      parseF64Sign, parseF64Rest, digitsToNat, digitVal, isNumChar, hf, hf2, hf3]
  · simp [parse_amount, parseAmountChars, isNumChar, parseF64Chars, parseF64Sign,
      parseF64Rest, digitsToNat, digitVal]
  · simp [parse_amount, parseAmountChars, isNumChar, parseF64Chars, parseF64Sign,
      parseF64Rest, digitsToNat, digitVal]

/-! ### C1: the pad synthesis invariant -/

theorem parse_amount_fmt2_neg (x : ℚ) :
    parse_amount (fmt2 (-x)) = -(parse_amount (fmt2 x)) := by
  rw [fmt2, fmt2, parse_amount_fmt2Chars, parse_amount_fmt2Chars,
    show 100 * -x = -(100 * x) by ring, rne_neg]
  push_cast
  ring

theorem thirdTxs_get (data : LedgerData) (pads : List PadDirective) (i : ℕ)
    (p : PadDirective) (h : pads[i]? = some p) :
    ∃ data', (thirdTxs data pads)[i]? = some (synthPadTx data' p) := by
  induction pads generalizing data i with
  | nil => simp at h
  | cons q qs ih =>
    cases i with
    | zero =>
      simp only [List.getElem?_cons_zero, Option.some.injEq] at h
      subst h
      exact ⟨{ data with pads :=
        data.pads ++ [(⟨q.account.name, q.pad.name, q.date⟩ : PadEntry)] },
        by simp [thirdTxs]⟩
    | succ n =>
      simp only [List.getElem?_cons_succ] at h
      obtain ⟨d', hd⟩ := ih (thirdStep data q) n h
      exact ⟨d', by simpa [thirdTxs] using hd⟩

/-- C1: the reconciliation pass appends to the converted transactions one
synthetic transaction per pad directive, in pad order; the `i`-th appended
transaction is dated at the `i`-th pad's date, tagged `pad`, narrated
`<target> from <source>`, and has exactly two postings, one on each of the
pad's accounts, whose parsed amounts are exact additive inverses. -/
theorem C1_pad_synthesis (env : Env) (ds : List SpannedDirective) :
    (processResult env ds).transactions =
      (secondState env ds).2.transactions ++ thirdTxs (secondState env ds).2 (padsOf ds) ∧
    (thirdTxs (secondState env ds).2 (padsOf ds)).length = (padsOf ds).length ∧
    ∀ (i : ℕ) (p : PadDirective), (padsOf ds)[i]? = some p →
      ∃ tx : Transaction, (thirdTxs (secondState env ds).2 (padsOf ds))[i]? = some tx ∧
        tx.date = p.date ∧ tx.tags = ["pad"] ∧
        tx.narration = p.account.name ++ " from " ++ p.pad.name ∧
        ∃ amt src : String,
          tx.postings.map (fun q => (q.account, q.amount)) =
            [(p.account.name, amt), (p.pad.name, src)] ∧
          parse_amount amt = -(parse_amount src) := by
  refine ⟨processResult_transactions env ds, thirdTxs_length _ _, ?_⟩
  intro i p hp
  obtain ⟨d', hd⟩ := thirdTxs_get (secondState env ds).2 (padsOf ds) i p hp
  refine ⟨synthPadTx d' p, hd, rfl, rfl, rfl,
    fmt2 (-(padTargetNum d' p).1), fmt2 (padTargetNum d' p).1, rfl, ?_⟩
  exact parse_amount_fmt2_neg (padTargetNum d' p).1

/-- C1 witness: on the pad scenario stream the invariant instantiates at the
single pad directive. -/
theorem C1_pad_synthesis_witness :
    ∃ tx : Transaction,
      (thirdTxs (secondState envTriv c2dirs).2 (padsOf c2dirs))[0]? = some tx ∧
        tx.date = ⟨2024, 1, 15⟩ ∧ tx.tags = ["pad"] ∧
        tx.narration = "Assets:X" ++ " from " ++ "Income:Gift" ∧
        ∃ amt src : String,
          tx.postings.map (fun q => (q.account, q.amount)) =
            [("Assets:X", amt), ("Income:Gift", src)] ∧
          parse_amount amt = -(parse_amount src) :=
  (C1_pad_synthesis envTriv c2dirs).2.2 0
    ⟨⟨2024, 1, 15⟩, mkPAccount "Assets:X", mkPAccount "Income:Gift"⟩ (by decide)

/-- C8: every synthesized pad transaction's id is `pad-` followed by the
pad's formatted date; on a stream with two pads of the same date the two
synthesized transactions share one identifier and the by-identifier lookup
returns only the first of them. -/
theorem C8_pad_id_collision :
    (∀ (data : LedgerData) (pad : PadDirective),
        (synthPadTx data pad).id = "pad-" ++ formatDate pad.date) ∧
    ((processResult envTriv c8dirs).transactions.map (fun t => (t.id, t.narration)) =
      [("pad-2024-01-15", "Assets:X from Income:A"),
       ("pad-2024-01-15", "Assets:Y from Income:B")]) ∧
    ((transactionLookup (processResult envTriv c8dirs) "pad-2024-01-15").map
        (fun t => t.narration) = some "Assets:X from Income:A") := by
  have hr : rne (100 * (0:ℚ)) = 0 := by norm_num [rne, Int.fract]
  have hf : fmt2 (0:ℚ) = "0.00" := by
    rw [fmt2, hr]
    simp [fmt2Chars, natChars, padChars, digitChar]
  refine ⟨fun data pad => rfl, ?_, ?_⟩ <;>
  simp [c8dirs, processResult, padsOf, thirdStep, synthPadTx, padTargetNum, padTargetRaw,
    secondStep, LedgerData.empty, transactionLookup, sortByDate, insertByDate, startsWith,
    startsWithChars, mkPAccount, parse_account_name, splitColon, List.findIdx?,
    Date.lt_iff, Date.le_iff, parseF64, parseF64Chars, parseF64Sign, parseF64Rest,
    digitsToNat, digitVal, isNumChar, formatDate, padChars, natChars, digitChar, hf]


/-! ### C3: latest balance snapshot -/

theorem find?_append_some {α : Type} (l₁ l₂ : List α) (p : α → Bool) (a : α)
    (h : l₁.find? p = some a) : (l₁ ++ l₂).find? p = some a := by
  induction l₁ with
  | nil => simp at h
  | cons x xs ih =>
    rw [List.cons_append, List.find?_cons]
    rw [List.find?_cons] at h
    by_cases hp : p x = true
    · simp only [hp] at h ⊢
      exact h
    · simp only [Bool.not_eq_true] at hp
      simp only [hp] at h ⊢
      exact ih h

theorem find?_updateFirst_preserve (l : List Account) (tgt name : String)
    (f : Account → Account) (hf : ∀ x, (f x).name = x.name) (a : Account)
    (h : l.find? (fun x => x.name == name) = some a) :
    ∃ a', (updateFirst l (fun x => x.name == tgt) f).find? (fun x => x.name == name) =
        some a' ∧ ((tgt = name ∧ a' = f a) ∨ (tgt ≠ name ∧ a' = a)) := by
  induction l with
  | nil => simp at h
  | cons x xs ih =>
    rw [List.find?_cons] at h
    rw [updateFirst]
    by_cases hq : (x.name == tgt) = true
    · rw [if_pos hq, List.find?_cons]
      by_cases hp : (x.name == name) = true
      · simp only [hp] at h
        injection h with h
        subst h
        have htn : tgt = name := by
          rw [beq_iff_eq] at hq hp
          rw [← hq, hp]
        have hfx : ((f x).name == name) = true := by
          rw [hf x]
          exact hp
        simp only [hfx]
        exact ⟨f x, rfl, Or.inl ⟨htn, rfl⟩⟩
      · simp only [hp] at h
        have : ((f x).name == name) = (x.name == name) := by rw [hf x]
        rw [this]
        simp only [hp]
        have htn : tgt ≠ name := by
          intro he
          rw [beq_iff_eq] at hq
          rw [he] at hq
          rw [hq] at hp
          simp at hp
        exact ⟨a, h, Or.inr ⟨htn, rfl⟩⟩
    · rw [if_neg hq, List.find?_cons]
      by_cases hp : (x.name == name) = true
      · simp only [hp] at h ⊢
        injection h with h
        subst h
        have htn : tgt ≠ name := by
          intro he
          rw [beq_iff_eq] at hp
          rw [he, hp] at hq
          simp at hq
        exact ⟨x, rfl, Or.inr ⟨htn, rfl⟩⟩
      · simp only [hp] at h ⊢
        exact ih h





theorem secondStep_find_balance (env : Env) (st : List String × LedgerData)
    (dv : SpannedDirective) (name : String) (a : Account)
    (h : st.2.accounts.find? (fun x => x.name == name) = some a) :
    ∃ a', (secondStep env st dv).2.accounts.find? (fun x => x.name == name) = some a' ∧
      a'.balance = (balancesFor [dv] name).foldl updSnap a.balance := by
  rcases dv with ⟨data, span, source⟩
  cases data with
  | open_ o =>
    by_cases hc : st.1.contains o.account.name = true
    · refine ⟨a, ?_, by simp [balancesFor]⟩
      simp only [secondStep]
      rw [if_pos hc]
      exact h
    · refine ⟨a, ?_, by simp [balancesFor]⟩
      simp only [secondStep]
      rw [if_neg hc]
      exact find?_append_some _ _ _ _ h
  | close c =>
    obtain ⟨a', ha', hor⟩ := find?_updateFirst_preserve st.2.accounts c.account.name name
      (fun x => { x with status := .closed, close_date := some c.date })
      (fun x => rfl) a h
    refine ⟨a', ?_, ?_⟩
    · simp only [secondStep]
      exact ha'
    · rcases hor with ⟨_, rfl⟩ | ⟨_, rfl⟩ <;> simp [balancesFor]
  | transaction t =>
    refine ⟨a, ?_, by simp [balancesFor]⟩
    simp only [secondStep]
    exact h
  | balance b =>
    obtain ⟨a', ha', hor⟩ := find?_updateFirst_preserve st.2.accounts b.account.name name
      (fun x => match x.balance with
        | some old =>
          if old.date < b.date then
            { x with balance := some ⟨decToString b.amount.amount, b.amount.currency, b.date⟩ }
          else x
        | none =>
          { x with balance := some ⟨decToString b.amount.amount, b.amount.currency, b.date⟩ })
      (fun x => by
        dsimp only
        cases hx : x.balance with
        | none => rfl
        | some old =>
          dsimp only
          by_cases hd : old.date < b.date
          · rw [if_pos hd]
          · rw [if_neg hd]) a h
    refine ⟨a', ?_, ?_⟩
    · simp only [secondStep]
      exact ha'
    · rcases hor with ⟨heq, rfl⟩ | ⟨hne, rfl⟩
      · subst heq
        have hbf : balancesFor [⟨Directive.balance b, span, source⟩] b.account.name =
            [(⟨decToString b.amount.amount, b.amount.currency, b.date⟩ : BalSnap)] := by
          simp [balancesFor]
        rw [hbf]
        cases hx : a.balance with
        | none => simp [hx, updSnap]
        | some old =>
          dsimp only
          by_cases hd : old.date < b.date
          · simp [hx, hd, updSnap]
          · simp [hx, hd, updSnap]
      · have hbf : balancesFor [⟨Directive.balance b, span, source⟩] name = [] := by
          simp [balancesFor, hne]
        rw [hbf]
        simp
  | pad p =>
    refine ⟨a, ?_, by simp [balancesFor]⟩
    simp only [secondStep]
    exact h
  | commodity c =>
    refine ⟨a, ?_, by simp [balancesFor]⟩
    simp only [secondStep]
    exact h
  | document d =>
    refine ⟨a, ?_, by simp [balancesFor]⟩
    simp only [secondStep]
    exact h
  | price p =>
    refine ⟨a, ?_, by simp [balancesFor]⟩
    simp only [secondStep]
    exact h
  | event e =>
    refine ⟨a, ?_, by simp [balancesFor]⟩
    simp only [secondStep]
    exact h
  | note n =>
    refine ⟨a, ?_, by simp [balancesFor]⟩
    simp only [secondStep]
    exact h
  | option o =>
    refine ⟨a, ?_, by simp [balancesFor]⟩
    simp only [secondStep]
    exact h
  | include_ i =>
    refine ⟨a, ?_, by simp [balancesFor]⟩
    simp only [secondStep]
    exact h
  | custom c =>
    refine ⟨a, ?_, by simp [balancesFor]⟩
    simp only [secondStep]
    exact h
  | comment c =>
    refine ⟨a, ?_, by simp [balancesFor]⟩
    simp only [secondStep]
    exact h





theorem balancesFor_cons (dv : SpannedDirective) (ds : List SpannedDirective) (name : String) :
    balancesFor (dv :: ds) name = balancesFor [dv] name ++ balancesFor ds name := by
  rw [balancesFor, balancesFor, balancesFor, show dv :: ds = [dv] ++ ds from rfl,
    List.filterMap_append]

theorem snap_fold (env : Env) (ds : List SpannedDirective) (st : List String × LedgerData)
    (name : String) (a : Account)
    (h : st.2.accounts.find? (fun x => x.name == name) = some a) :
    ∃ a', (ds.foldl (secondStep env) st).2.accounts.find? (fun x => x.name == name) =
        some a' ∧
      a'.balance = (balancesFor ds name).foldl updSnap a.balance := by
  induction ds generalizing st a with
  | nil => exact ⟨a, h, by simp [balancesFor]⟩
  | cons dv ds ih =>
    rw [List.foldl_cons]
    obtain ⟨a₁, h₁, hb₁⟩ := secondStep_find_balance env st dv name a h
    obtain ⟨a', h', hb'⟩ := ih (secondStep env st dv) a₁ h₁
    refine ⟨a', h', ?_⟩
    rw [hb', hb₁, balancesFor_cons dv ds name, List.foldl_append]

theorem updSnap_fold_max (l : List BalSnap) (s : Option BalSnap) (r : BalSnap)
    (h : l.foldl updSnap s = some r) :
    (r ∈ l ∨ s = some r) ∧ (∀ e ∈ l, e.date ≤ r.date) ∧
      (∀ x, s = some x → x.date ≤ r.date) := by
  induction l generalizing s with
  | nil =>
    simp only [List.foldl_nil] at h
    exact ⟨Or.inr h, by simp, fun x hx => by rw [hx] at h; injection h with h; rw [h]⟩
  | cons e es ih =>
    rw [List.foldl_cons] at h
    obtain ⟨hmem, hall, hs⟩ := ih (updSnap s e) h
    have hstep : ∀ x, updSnap s e = some x → e.date ≤ x.date ∧
        (∀ y, s = some y → y.date ≤ x.date) := by
      intro x hx
      cases s with
      | none =>
        simp only [updSnap] at hx
        injection hx with hx
        subst hx
        exact ⟨le_refl _, by simp⟩
      | some old =>
        simp only [updSnap] at hx
        by_cases hd : old.date < e.date
        · rw [if_pos hd] at hx
          injection hx with hx
          subst hx
          exact ⟨le_refl _, fun y hy => by injection hy with hy; subst hy; exact le_of_lt hd⟩
        · rw [if_neg hd] at hx
          injection hx with hx
          subst hx
          exact ⟨le_of_not_lt hd, fun y hy => by
            injection hy with hy
            subst hy
            exact le_refl _⟩
    have hupd : ∃ u, updSnap s e = some u := by
      cases s with
      | none => exact ⟨e, rfl⟩
      | some old =>
        simp only [updSnap]
        by_cases hd : old.date < e.date
        · rw [if_pos hd]; exact ⟨e, rfl⟩
        · rw [if_neg hd]; exact ⟨old, rfl⟩
    obtain ⟨u, hu⟩ := hupd
    have hud : u.date ≤ r.date := hs u hu
    obtain ⟨hed, hyd⟩ := hstep u hu
    refine ⟨?_, ?_, ?_⟩
    · rcases hmem with hm | hm
      · exact Or.inl (List.mem_cons_of_mem _ hm)
      · -- updSnap s e = some r
        cases s with
        | none =>
          simp only [updSnap] at hm
          injection hm with hm
          exact Or.inl (by rw [← hm]; exact List.mem_cons_self _ _)
        | some old =>
          simp only [updSnap] at hm
          by_cases hd : old.date < e.date
          · rw [if_pos hd] at hm
            injection hm with hm
            exact Or.inl (by rw [← hm]; exact List.mem_cons_self _ _)
          · rw [if_neg hd] at hm
            exact Or.inr hm
    · intro x hx
      rcases List.mem_cons.1 hx with rfl | hx2
      · exact le_trans hed hud
      · exact hall x hx2
    · intro x hx
      exact le_trans (hyd x hx) hud



set_option maxRecDepth 4000 in
/-- C3 counterexample: in the stream `[Balance 150 @2024-02-01, Open,
Balance 100 @2024-01-01]` the account carries two Balance directives and
the final snapshot is the one dated 2024-01-01 — not the latest-dated
directive (2024-02-01): a Balance that precedes the account's Open in the
stream is skipped, so the snapshot is not order-independent. -/
theorem C3_counterexample :
    ((balancesFor c3dirs "Assets:X").map (fun s => (s.amount, s.date))) =
      [("150", ⟨2024, 2, 1⟩), ("100", ⟨2024, 1, 1⟩)] ∧
    (((processResult envTriv c3dirs).accounts.find? (fun a => a.name == "Assets:X")).map
        (fun a => a.balance)) = some (some ⟨"100", "CNY", ⟨2024, 1, 1⟩⟩) ∧
    ¬ ((⟨2024, 2, 1⟩ : Date) ≤ ⟨2024, 1, 1⟩) := by
  have hd1 : decToString ⟨150, 0⟩ = "150" := by
    simp [decToString, decChars, natChars, digitChar]
  have hd2 : decToString ⟨100, 0⟩ = "100" := by
    simp [decToString, decChars, natChars, digitChar]
  refine ⟨?_, ?_, by decide⟩
  · simp [c3dirs, balancesFor, mkPAccount, parse_account_name, splitColon, hd1, hd2]
  · simp [c3dirs, processResult, padsOf, secondStep, LedgerData.empty, updateFirst,
      mkPAccount, parse_account_name, splitColon, Date.lt_iff, hd1, hd2]

/-- C3 (amended): once the account exists (its Open has been processed)
with an empty snapshot, the directives that follow drive the snapshot
through `updSnap`: the final snapshot is a balance entry of maximal date
among those that follow the Open — the latest-dated one — and a stored
snapshot is replaced only when the new date is strictly later. -/
theorem C3_latest_balance :
    (∀ (env : Env) (ds₁ ds₂ : List SpannedDirective) (name : String) (a : Account),
      (secondState env ds₁).2.accounts.find? (fun x => x.name == name) = some a →
      a.balance = none →
      ∃ a', (secondState env (ds₁ ++ ds₂)).2.accounts.find? (fun x => x.name == name) =
          some a' ∧
        a'.balance = (balancesFor ds₂ name).foldl updSnap none) ∧
    (∀ (l : List BalSnap) (r : BalSnap), l.foldl updSnap none = some r →
      r ∈ l ∧ ∀ e ∈ l, e.date ≤ r.date) ∧
    (∀ (old e : BalSnap), updSnap (some old) e =
      if old.date < e.date then some e else some old) := by
  refine ⟨?_, ?_, fun old e => rfl⟩
  · intro env ds₁ ds₂ name a h hnone
    rw [secondState, List.foldl_append]
    obtain ⟨a', h', hb⟩ := snap_fold env ds₂ (secondState env ds₁) name a h
    rw [hnone] at hb
    exact ⟨a', h', hb⟩
  · intro l r h
    obtain ⟨hmem, hall, _⟩ := updSnap_fold_max l none r h
    refine ⟨?_, hall⟩
    rcases hmem with hm | hm
    · exact hm
    · cases hm

/-- C3 witness: the amended statement instantiated on an Open followed by
the two balances `150 @2024-02-01` and `100 @2024-01-01`. -/
theorem C3_latest_balance_witness :
    ∃ a', (secondState envTriv (c3w1 ++ c3w2)).2.accounts.find?
        (fun x => x.name == "Assets:X") = some a' ∧
      a'.balance = (balancesFor c3w2 "Assets:X").foldl updSnap none :=
  C3_latest_balance.1 envTriv c3w1 c3w2 "Assets:X"
    ⟨"Assets:X", .assets, .opened, none, none, some ⟨2023, 1, 1⟩, none, none, none, []⟩
    (by decide) rfl

/-! ### C9: the date of a date-shaped line with an invalid calendar date -/

theorem dateShape_head_digit {cs : List Char} {x : (ℕ × ℕ × ℕ) × List Char}
    (h : dateShape cs = some x) : ∃ c tl, cs = c :: tl ∧ c.isDigit = true := by
  rcases cs with _ | ⟨c, tl⟩
  · simp [dateShape] at h
  · refine ⟨c, tl, rfl, ?_⟩
    unfold dateShape at h
    split at h
    · rename_i y1 y2 y3 y4 m1 m2 d1 d2 r heq
      split at h
      · injection heq with h1 _
        rename_i hall _
        simp only [List.all_cons, Bool.and_eq_true] at hall
        subst h1
        exact hall.1
      · exact absurd h (by simp)
    · exact absurd h (by simp)

theorem dirDate_parse_transaction_full (r : List Char) (ymd : ℕ × ℕ × ℕ)
    (cl : List (List Char)) :
    dirDate (parse_transaction_full r ymd cl) = some (parse_date ymd.1 ymd.2.1 ymd.2.2) := by
  simp [parse_transaction_full, dirDate]

theorem dirDate_parse_open (rest : String) (y m d : ℕ) (dt : Date)
    (h : dirDate (parse_open rest (y, m, d)) = some dt) : dt = parse_date y m d := by
  rcases hsp : splitWs rest with _ | ⟨a, _ | ⟨b, c⟩⟩ <;>
    simp_all [parse_open, dirDate]

theorem dirDate_parse_close (rest : String) (y m d : ℕ) (dt : Date)
    (h : dirDate (parse_close rest (y, m, d)) = some dt) : dt = parse_date y m d := by
  rcases hsp : splitWs rest with _ | ⟨a, _ | ⟨b, c⟩⟩ <;>
    simp_all [parse_close, dirDate]

theorem dirDate_parse_balance (rest : String) (y m d : ℕ) (dt : Date)
    (h : dirDate (parse_balance rest (y, m, d)) = some dt) : dt = parse_date y m d := by
  rcases hsp : splitWs rest with _ | ⟨a, _ | ⟨b, _ | ⟨c, _ | ⟨e, f⟩⟩⟩⟩ <;>
    simp_all [parse_balance, dirDate]

theorem dirDate_parse_commodity (rest : String) (y m d : ℕ) (dt : Date)
    (h : dirDate (parse_commodity rest (y, m, d)) = some dt) : dt = parse_date y m d := by
  rcases hsp : splitWs rest with _ | ⟨a, _ | ⟨b, c⟩⟩ <;>
    simp_all [parse_commodity, dirDate]

theorem dirDate_parse_pad (rest : String) (y m d : ℕ) (dt : Date)
    (h : dirDate (parse_pad rest (y, m, d)) = some dt) : dt = parse_date y m d := by
  rcases hsp : splitWs rest with _ | ⟨a, _ | ⟨b, _ | ⟨c, e⟩⟩⟩ <;>
    simp_all [parse_pad, dirDate]

theorem dirDate_parse_document (rest : String) (y m d : ℕ) (dt : Date)
    (h : dirDate (parse_document rest (y, m, d)) = some dt) : dt = parse_date y m d := by
  rcases hsp : splitWs rest with _ | ⟨a, _ | ⟨b, _ | ⟨c, e⟩⟩⟩ <;>
    simp_all [parse_document, dirDate]

theorem dirDate_parse_price (rest : String) (y m d : ℕ) (dt : Date)
    (h : dirDate (parse_price rest (y, m, d)) = some dt) : dt = parse_date y m d := by
  rcases hsp : splitWs rest with _ | ⟨a, _ | ⟨b, _ | ⟨c, _ | ⟨e, f⟩⟩⟩⟩ <;>
    simp_all [parse_price, dirDate]

theorem dirDate_parse_note (rest : String) (y m d : ℕ) (dt : Date)
    (h : dirDate (parse_note rest (y, m, d)) = some dt) : dt = parse_date y m d := by
  rcases hsp : splitn 3 rest with _ | ⟨a, _ | ⟨b, _ | ⟨c, e⟩⟩⟩ <;>
    simp_all [parse_note, dirDate]

theorem dirDate_parse_event (rest : String) (y m d : ℕ) (dt : Date)
    (h : dirDate (parse_event rest (y, m, d)) = some dt) : dt = parse_date y m d := by
  rcases hsp : splitn 3 rest with _ | ⟨a, _ | ⟨b, _ | ⟨c, e⟩⟩⟩ <;>
    simp_all [parse_event, dirDate]

theorem dirDate_parse_custom (rest : String) (y m d : ℕ) (dt : Date)
    (h : dirDate (parse_custom rest (y, m, d)) = some dt) : dt = parse_date y m d := by
  rcases hsp : splitWs rest with _ | ⟨a, _ | ⟨b, _ | ⟨c, e⟩⟩⟩ <;>
    simp_all [parse_custom, dirDate]

theorem dirDate_parse_option (rest : String) (dt : Date)
    (h : dirDate (parse_option rest) = some dt) : False := by
  rcases hsp : splitn 3 rest with _ | ⟨a, _ | ⟨b, _ | ⟨c, e⟩⟩⟩ <;>
    simp_all [parse_option, dirDate]

theorem dirDate_parse_include (rest : String) (dt : Date)
    (h : dirDate (parse_include rest) = some dt) : False := by
  rcases hsp : splitn 2 rest with _ | ⟨a, _ | ⟨b, c⟩⟩ <;>
    simp_all [parse_include, dirDate]

theorem pdb_txn (line : List Char) (rest : List (List Char)) (pos ln : ℕ)
    (src : Option String) (y m d : ℕ) (restChars : List Char)
    (hshape : dateShape (trimChars line) = some ((y, m, d), restChars))
    (htxn : startsWithChars ['*'] restChars = true ∨ startsWithChars ['!'] restChars = true ∨
      startsWithChars "txn ".data restChars = true) :
    parse_directive_block line rest pos ln src =
      some (⟨parse_transaction_full restChars (y, m, d) (rest.takeWhile isContLine),
        ⟨ln, (rest.takeWhile isContLine).foldl (fun a l => a + byteLen l + 1)
          (pos + byteLen line)⟩, src⟩, 1 + (rest.takeWhile isContLine).length) := by
  unfold parse_directive_block
  dsimp only
  split
  · rename_i heq
    rw [hshape] at heq
    cases heq
  · rename_i ymd' rc' heq
    rw [hshape] at heq
    injection heq with h1
    injection h1 with h2 h3
    subst h2
    subst h3
    rw [if_pos htxn]

theorem pdb_commodity (line : List Char) (rest : List (List Char)) (pos ln : ℕ)
    (src : Option String) (y m d : ℕ) (restChars : List Char)
    (hshape : dateShape (trimChars line) = some ((y, m, d), restChars))
    (htxn : ¬ (startsWithChars ['*'] restChars = true ∨
      startsWithChars ['!'] restChars = true ∨
      startsWithChars "txn ".data restChars = true))
    (hcom : startsWith (⟨restChars⟩ : String) "commodity " = true) :
    parse_directive_block line rest pos ln src =
      some (⟨parse_commodity ⟨restChars⟩ (y, m, d),
        ⟨ln, (rest.takeWhile isContLine).foldl (fun a l => a + byteLen l + 1)
          (pos + byteLen line)⟩, src⟩, 1 + (rest.takeWhile isContLine).length) := by
  unfold parse_directive_block
  dsimp only
  split
  · rename_i heq
    rw [hshape] at heq
    cases heq
  · rename_i ymd' rc' heq
    rw [hshape] at heq
    injection heq with h1
    injection h1 with h2 h3
    subst h2
    subst h3
    rw [if_neg htxn, if_pos hcom]

theorem pdb_none (line : List Char) (rest : List (List Char)) (pos ln : ℕ)
    (src : Option String) (y m d : ℕ) (restChars : List Char)
    (hshape : dateShape (trimChars line) = some ((y, m, d), restChars))
    (htxn : ¬ (startsWithChars ['*'] restChars = true ∨
      startsWithChars ['!'] restChars = true ∨
      startsWithChars "txn ".data restChars = true))
    (hcom : ¬ startsWith (⟨restChars⟩ : String) "commodity " = true) :
    parse_directive_block line rest pos ln src = none := by
  unfold parse_directive_block
  dsimp only
  split
  · rename_i heq
    rw [hshape] at heq
  · rename_i ymd' rc' heq
    rw [hshape] at heq
    injection heq with h1
    injection h1 with h2 h3
    subst h2
    subst h3
    rw [if_neg htxn, if_neg hcom]

theorem parse_line_of_dateShape (trimmed : List Char) (pos ln : ℕ) (src : Option String)
    (y m d : ℕ) (restChars : List Char)
    (hshape : dateShape trimmed = some ((y, m, d), restChars)) :
    parse_line trimmed pos ln src =
      some ⟨(if startsWith ⟨restChars⟩ "open " then parse_open ⟨restChars⟩ (y, m, d)
        else if startsWith ⟨restChars⟩ "close " then parse_close ⟨restChars⟩ (y, m, d)
        else if startsWith ⟨restChars⟩ "balance " then parse_balance ⟨restChars⟩ (y, m, d)
        else if startsWith ⟨restChars⟩ "commodity " then parse_commodity ⟨restChars⟩ (y, m, d)
        else if startsWith ⟨restChars⟩ "pad " then parse_pad ⟨restChars⟩ (y, m, d)
        else if startsWith ⟨restChars⟩ "document " then parse_document ⟨restChars⟩ (y, m, d)
        else if startsWith ⟨restChars⟩ "price " then parse_price ⟨restChars⟩ (y, m, d)
        else if startsWith ⟨restChars⟩ "note " then parse_note ⟨restChars⟩ (y, m, d)
        else if startsWith ⟨restChars⟩ "event " then parse_event ⟨restChars⟩ (y, m, d)
        else if startsWith ⟨restChars⟩ "option " then parse_option ⟨restChars⟩
        else if startsWith ⟨restChars⟩ "include " then parse_include ⟨restChars⟩
        else if startsWith ⟨restChars⟩ "custom " then parse_custom ⟨restChars⟩ (y, m, d)
        else Directive.comment ⟨(⟨trimmed⟩ : String)⟩),
        ⟨ln, pos + byteLen trimmed⟩, src⟩ := by
  unfold parse_line
  dsimp only
  split
  · rename_i ymd' rc' heq
    rw [hshape] at heq
    injection heq with h1
    injection h1 with h2 h3
    subst h2
    subst h3
    rfl
  · rename_i heq
    rw [hshape] at heq
    cases heq

theorem dirDate_parse_line_chain (restChars trimmed : List Char) (y m d : ℕ) (dt : Date)
    (h : dirDate (if startsWith ⟨restChars⟩ "open " then parse_open ⟨restChars⟩ (y, m, d)
      else if startsWith ⟨restChars⟩ "close " then parse_close ⟨restChars⟩ (y, m, d)
      else if startsWith ⟨restChars⟩ "balance " then parse_balance ⟨restChars⟩ (y, m, d)
      else if startsWith ⟨restChars⟩ "commodity " then parse_commodity ⟨restChars⟩ (y, m, d)
      else if startsWith ⟨restChars⟩ "pad " then parse_pad ⟨restChars⟩ (y, m, d)
      else if startsWith ⟨restChars⟩ "document " then parse_document ⟨restChars⟩ (y, m, d)
      else if startsWith ⟨restChars⟩ "price " then parse_price ⟨restChars⟩ (y, m, d)
      else if startsWith ⟨restChars⟩ "note " then parse_note ⟨restChars⟩ (y, m, d)
      else if startsWith ⟨restChars⟩ "event " then parse_event ⟨restChars⟩ (y, m, d)
      else if startsWith ⟨restChars⟩ "option " then parse_option ⟨restChars⟩
      else if startsWith ⟨restChars⟩ "include " then parse_include ⟨restChars⟩
      else if startsWith ⟨restChars⟩ "custom " then parse_custom ⟨restChars⟩ (y, m, d)
      else Directive.comment ⟨(⟨trimmed⟩ : String)⟩) = some dt) :
    dt = parse_date y m d := by
  by_cases h1 : startsWith (⟨restChars⟩ : String) "open " = true
  · rw [if_pos h1] at h
    exact dirDate_parse_open _ _ _ _ _ h
  rw [if_neg h1] at h
  by_cases h2 : startsWith (⟨restChars⟩ : String) "close " = true
  · rw [if_pos h2] at h
    exact dirDate_parse_close _ _ _ _ _ h
  rw [if_neg h2] at h
  by_cases h3 : startsWith (⟨restChars⟩ : String) "balance " = true
  · rw [if_pos h3] at h
    exact dirDate_parse_balance _ _ _ _ _ h
  rw [if_neg h3] at h
  by_cases h4 : startsWith (⟨restChars⟩ : String) "commodity " = true
  · rw [if_pos h4] at h
    exact dirDate_parse_commodity _ _ _ _ _ h
  rw [if_neg h4] at h
  by_cases h5 : startsWith (⟨restChars⟩ : String) "pad " = true
  · rw [if_pos h5] at h
    exact dirDate_parse_pad _ _ _ _ _ h
  rw [if_neg h5] at h
  by_cases h6 : startsWith (⟨restChars⟩ : String) "document " = true
  · rw [if_pos h6] at h
    exact dirDate_parse_document _ _ _ _ _ h
  rw [if_neg h6] at h
  by_cases h7 : startsWith (⟨restChars⟩ : String) "price " = true
  · rw [if_pos h7] at h
    exact dirDate_parse_price _ _ _ _ _ h
  rw [if_neg h7] at h
  by_cases h8 : startsWith (⟨restChars⟩ : String) "note " = true
  · rw [if_pos h8] at h
    exact dirDate_parse_note _ _ _ _ _ h
  rw [if_neg h8] at h
  by_cases h9 : startsWith (⟨restChars⟩ : String) "event " = true
  · rw [if_pos h9] at h
    exact dirDate_parse_event _ _ _ _ _ h
  rw [if_neg h9] at h
  by_cases h10 : startsWith (⟨restChars⟩ : String) "option " = true
  · rw [if_pos h10] at h
    exact (dirDate_parse_option _ _ h).elim
  rw [if_neg h10] at h
  by_cases h11 : startsWith (⟨restChars⟩ : String) "include " = true
  · rw [if_pos h11] at h
    exact (dirDate_parse_include _ _ h).elim
  rw [if_neg h11] at h
  by_cases h12 : startsWith (⟨restChars⟩ : String) "custom " = true
  · rw [if_pos h12] at h
    exact dirDate_parse_custom _ _ _ _ _ h
  rw [if_neg h12] at h
  simp [dirDate] at h

set_option maxHeartbeats 1000000 in
/-! ### C5: timeline running balance -/

/-- Spec-side single step ("a Balance event sets the running balance to its
asserted amount, a Pad or Transaction event adds its signed posting
amount"), for comparison with the code's `runForward`. -/
def specStepBalance (bal : ℚ) (x : TimelineItem) : ℚ :=
  match x.item_type with
  | .balance => x.posting_amount
  | .pad => bal + x.posting_amount
  | .transaction => bal + x.posting_amount

/-- Spec-side running-balance sequence obtained by folding
`specStepBalance` over the events. -/
def specTimelineBalances (bal : ℚ) : List TimelineItem → List ℚ
  | [] => []
  | x :: xs =>
    let b := specStepBalance bal x
    b :: specTimelineBalances b xs

/-- C5: the running balances computed by the forward pass are exactly the
spec's set-or-add fold, and on the scenario (Balance 100 at 2024-01-01, a
−20 transaction at 2024-01-10, a +5 transaction at 2024-01-20 on
`Assets:X`) the forward balances are `[100, 80, 85]` and the displayed page
(offset 0) is the reverse `[85, 80, 100]`. -/
theorem C5_timeline_running_balance :
    (∀ (bal : ℚ) (items : List TimelineItem),
      (runForward bal items).map TimelineItem.running_balance =
        specTimelineBalances bal items) ∧
    (timelineForward [c5tx1, c5tx2] [c5bal] "Assets:X").map
        TimelineItem.running_balance = [100, 80, 85] ∧
    (timelineDisplay [c5tx1, c5tx2] [c5bal] "Assets:X" 50 0).map
        TimelineItem.running_balance = [85, 80, 100] := by
  refine ⟨?_, ?_, ?_⟩
  · intro bal items
    induction items generalizing bal with
    | nil => simp [runForward, specTimelineBalances]
    | cons x xs ih =>
      rcases x with ⟨xd, xt, ty, pa, rb, desc⟩
      cases ty <;> simp [runForward, specTimelineBalances, specStepBalance, ih]
  · simp [c5tx1, c5tx2, c5bal, timelineForward, buildTimelineItems, containsSubstr,
      findSubstr, startsWithChars, get_posting_amount_for_account, Posting.total_value,
      Posting.amount_value, Posting.price_info, takeNumChars, parseF64Chars,
      parseF64Sign, parseF64Rest, digitsToNat, digitVal, isNumChar, pageParseAmount,
      pageParseAmountChars, Transaction.has_time, sortTimeline, insertItem, itemLt,
      strLtChars, Date.lt_iff, runForward]
    norm_num
  · simp [c5tx1, c5tx2, c5bal, timelineDisplay, timelineForward, buildTimelineItems,
      containsSubstr, findSubstr, startsWithChars, get_posting_amount_for_account,
      Posting.total_value, Posting.amount_value, Posting.price_info, takeNumChars,
      parseF64Chars, parseF64Sign, parseF64Rest, digitsToNat, digitVal, isNumChar,
      pageParseAmount, pageParseAmountChars, Transaction.has_time, sortTimeline,
      insertItem, itemLt, strLtChars, Date.lt_iff, runForward]
    norm_num

/-- C9: a line matching the date shape whose leading `y-m-d` is not a valid
calendar date is not dropped: the main loop still yields a directive for it,
and any date that directive carries is `1970-01-01`. -/
theorem C9_invalid_date_epoch (line : List Char) (rest : List (List Char)) (idx pos : ℕ)
    (src : Option String) (y m d : ℕ) (restChars : List Char)
    (hshape : dateShape (trimChars line) = some ((y, m, d), restChars))
    (hinvalid : isValidYmd y m d = false) :
    ∃ sd tl, parseLoop src (line :: rest) idx pos = sd :: tl ∧
      ∀ dt, dirDate sd.data = some dt → dt = epochDate := by
  obtain ⟨c, ctl, htr, hdig⟩ := dateShape_head_digit hshape
  have hepoch : parse_date y m d = epochDate := by
    rw [parse_date, if_neg]
    simp [hinvalid]
  have hc1 : c ≠ ';' := by intro he; rw [he] at hdig; exact absurd hdig (by decide)
  have hc2 : c ≠ '#' := by intro he; rw [he] at hdig; exact absurd hdig (by decide)
  have hc3 : c ≠ '*' := by intro he; rw [he] at hdig; exact absurd hdig (by decide)
  rw [parseLoop]
  rw [htr]
  simp only [List.isEmpty_cons, startsWithChars, List.isPrefixOf, Bool.and_true,
    Bool.or_eq_true, beq_iff_eq]
  rw [if_neg (by simp [hc1.symm, hc2.symm]), if_neg (by simp [hc3.symm])]
  by_cases htxn : (startsWithChars ['*'] restChars = true ∨
      startsWithChars ['!'] restChars = true ∨ startsWithChars "txn ".data restChars = true)
  · rw [pdb_txn line rest pos (idx + 1) src y m d restChars hshape htxn]
    refine ⟨_, _, rfl, ?_⟩
    intro dt hdt
    rw [dirDate_parse_transaction_full] at hdt
    injection hdt with h1
    rw [← h1, hepoch]
  · by_cases hcom : startsWith (⟨restChars⟩ : String) "commodity " = true
    · rw [pdb_commodity line rest pos (idx + 1) src y m d restChars hshape htxn hcom]
      refine ⟨_, _, rfl, ?_⟩
      intro dt hdt
      rw [dirDate_parse_commodity _ _ _ _ _ hdt, hepoch]
    · rw [pdb_none line rest pos (idx + 1) src y m d restChars hshape htxn hcom]
      rw [parse_line_of_dateShape (c :: ctl) pos (idx + 1) src y m d restChars (htr ▸ hshape)]
      refine ⟨_, _, rfl, ?_⟩
      intro dt hdt
      rw [dirDate_parse_line_chain restChars (c :: ctl) y m d dt hdt, hepoch]

/-- C9 witness: the line `2024-13-40 open Assets:Bad` (month 13, day 40)
still yields a directive and its date is the epoch. -/
theorem C9_invalid_date_epoch_witness :
    ∃ sd tl, parseLoop none ["2024-13-40 open Assets:Bad".data] 0 0 = sd :: tl ∧
      ∀ dt, dirDate sd.data = some dt → dt = epochDate :=
  C9_invalid_date_epoch "2024-13-40 open Assets:Bad".data [] 0 0 none 2024 13 40
    "open Assets:Bad".data (by decide) (by decide)

end Beanweb
